import Mathlib

/-!
Verification of the request routing, cache-strategy selection and
cache-key/versioning core of the `cf-ghproxy-worker` Cloudflare worker
(`src/worker.js`), against its natural-language specification.

The JavaScript source is shallowly embedded: strings are Lean `String`s
(processed through their underlying `List Char` so that every definition
reduces in the kernel), JS `null`-able values are `Option`s, and the
`fetch` orchestrator is a pure function from an explicit environment
(current UTC day stamp, edge-cache content, upstream outcome) to a result
record that also reports the observable side effects (whether the cache
was consulted, which key was used, whether an asynchronous cache write
was scheduled and under which key).
-/

namespace GhProxy

/-! ### Generic list/string helpers (JS `split`, `join`, `includes`) -/

/-- JS `string.split(sep)` for a one-character separator, on the
underlying character list.  `"".split(s)` is `[""]`, and consecutive
separators produce empty fragments, exactly as in JavaScript. -/
def jsSplit (sep : Char) : List Char → List (List Char)
  | [] => [[]]
  | c :: rest =>
    let r := jsSplit sep rest
    if c = sep then [] :: r
    else
      match r with
      | g :: gs => (c :: g) :: gs
      | [] => [[c]]

/-- JS `array.join(sep)` for a one-character separator. -/
def joinSep (sep : Char) : List (List Char) → List Char
  | [] => []
  | [x] => x
  | x :: xs => x ++ sep :: joinSep sep xs

/-- Does `p` hold of some suffix of the list?  Used to express regex
`test` / `String.prototype.includes`, which search at every position. -/
def anySuffix (p : List Char → Bool) : List Char → Bool
  | [] => p []
  | c :: rest => p (c :: rest) || anySuffix p rest

/-- JS `haystack.includes(needle)`: substring containment. -/
def containsStr (haystack needle : String) : Bool :=
  anySuffix (fun l => needle.data.isPrefixOf l) haystack.data

/-! ### Configuration constants (`worker.js` lines 1-28) -/

def EDGE_CACHE_SECONDS : Nat := 2592000
def SWR_SECONDS : Nat := 86400
def BROWSER_CACHE_SECONDS : Nat := 3600
def MAX_RETRIES : Nat := 2
def RETRY_DELAY_MS : Nat := 500
def REQUEST_TIMEOUT_MS : Nat := 30000

def GITHUB_HOSTS : List String :=
  ["github.com", "raw.githubusercontent.com",
   "gist.github.com", "gist.githubusercontent.com"]

/-! ### `getCacheVersion` (`worker.js` lines 37-43) -/

/-- `String(n).padStart(2, '0')` for a natural number. -/
def pad2 (n : Nat) : String :=
  if n < 10 then "0" ++ toString n else toString n

/-- `getCacheVersion()`: the `YYYYMMDD` UTC day stamp.  The JS function
reads the wall clock; the embedding takes the clock reading (UTC year,
month, day) as explicit arguments. -/
def getCacheVersion (year month day : Nat) : String :=
  toString year ++ pad2 month ++ pad2 day

/-! ### `extractETag` (`worker.js` lines 51-57) -/

/-- The source normalizes with a global regex replace whose pattern is
the alternation of an anchored literal `W/"` and a bare `"`.  Scanned
from the left, the anchor can only fire at position 0, so the replace
is: strip the leading `W/"` when present, then delete every `"`. -/
def stripETagChars (l : List Char) : List Char :=
  let rest := if ['W', '/', '"'].isPrefixOf l then l.drop 3 else l
  rest.filter (fun c => c ≠ '"')

/-- `extractETag(response)`, as a function of the response's `etag`
header (`none` when the header is absent).  JS `if (!etag)` also treats
the empty string as absent.  The normalized tag is truncated to its
first 32 characters by `substring(0, 32)`. -/
def extractETag (etagHeader : Option String) : Option String :=
  match etagHeader with
  | none => none
  | some e =>
    if e = "" then none
    else some (String.mk ((stripETagChars e.data).take 32))

/-! ### `getCacheStrategy` (`worker.js` lines 64-98) and its regexes -/

structure CacheStrategy where
  edgeTTL : Nat
  browserTTL : Nat
  useETag : Bool
  description : String
deriving Repr, DecidableEq

/-- Consume one-or-more ASCII digits (`\d+`); `none` when the list does
not start with a digit, otherwise the remainder after the maximal digit
run.  A maximal run is what the JS regexes below commit to, because in
each of them `\d+` is followed by a non-digit literal, so backtracking
can never give digits back. -/
def dropDigits1 : List Char → Option (List Char)
  | [] => none
  | c :: rest =>
    if c.isDigit then
      some (rest.dropWhile (fun d => d.isDigit))
    else none

/-- Matcher for the tail of `/\/v?\d+\.\d+(\.\d+)?\//` after the leading
`/` and optional `v`: `\d+\.\d+` then either `/` or `.\d+/`. -/
def verTail (l : List Char) : Bool :=
  match dropDigits1 l with
  | none => false
  | some l1 =>
    match l1 with
    | '.' :: l2 =>
      match dropDigits1 l2 with
      | none => false
      | some l3 =>
        match l3 with
        | '/' :: _ => true
        | '.' :: l4 =>
          (match dropDigits1 l4 with
           | some ('/' :: _) => true
           | _ => false)
        | _ => false
    | _ => false

/-- Match of `/\/v?\d+\.\d+(\.\d+)?\//` at the current position.  The
optional `v` is deterministic: `v` is not a digit, so when the character
after `/` is `v` the regex can only proceed by consuming it. -/
def matchVerAt : List Char → Bool
  | '/' :: 'v' :: rest => verTail rest
  | '/' :: rest => verTail rest
  | _ => false

/-- `/\/v?\d+\.\d+(\.\d+)?\//.test(pathname)`. -/
def testVersionPattern (pathname : String) : Bool :=
  anySuffix matchVerAt pathname.data

/-- `/\/tags?\//.test(pathname)`: the pattern matches somewhere iff the
string contains `/tag/` or `/tags/` as a substring. -/
def testTagsPattern (pathname : String) : Bool :=
  containsStr pathname "/tag/" || containsStr pathname "/tags/"

/-- Tail of `/\/releases\/download\/v?\d+/` after the literal prefix:
optional `v` then at least one digit. -/
def relTail : List Char → Bool
  | 'v' :: c :: _ => c.isDigit
  | c :: _ => c.isDigit
  | [] => false

/-- Match of `/\/releases\/download\/v?\d+/` at the current position. -/
def matchRelAt (l : List Char) : Bool :=
  "/releases/download/".data.isPrefixOf l && relTail (l.drop 19)

/-- `/\/releases\/download\/v?\d+/.test(pathname)`. -/
def testReleasesPattern (pathname : String) : Bool :=
  anySuffix matchRelAt pathname.data

/-- Does the pathname contain one of the four "dynamic" branch-like
substrings (`worker.js` lines 66-69)? -/
def isDynamicPath (pathname : String) : Bool :=
  containsStr pathname "/latest/" || containsStr pathname "/nightly/" ||
  containsStr pathname "/master/" || containsStr pathname "/main/"

/-- Does the pathname match one of the three "versioned" regexes
(`worker.js` lines 80-82)? -/
def isVersionedPath (pathname : String) : Bool :=
  testVersionPattern pathname || testTagsPattern pathname ||
  testReleasesPattern pathname

def dynamicStrategy : CacheStrategy :=
  { edgeTTL := 3600, browserTTL := 300, useETag := true,
    description := "dynamic" }

def versionedStrategy : CacheStrategy :=
  { edgeTTL := 2592000, browserTTL := 86400, useETag := false,
    description := "versioned" }

def defaultStrategy : CacheStrategy :=
  { edgeTTL := 86400, browserTTL := 3600, useETag := true,
    description := "default" }

/-- `getCacheStrategy(pathname)` (`worker.js` lines 64-98): first match
wins — dynamic, then versioned, then the default fallback. -/
def getCacheStrategy (pathname : String) : CacheStrategy :=
  if isDynamicPath pathname then dynamicStrategy
  else if isVersionedPath pathname then versionedStrategy
  else defaultStrategy

/-! ### `parseGitHubPath` (`worker.js` lines 105-130) -/

structure GitHubInfo where
  host : String
  path : String
  fullUrl : String
deriving Repr, DecidableEq

/-- `pathname.split('/').filter(p => p)` as a list of strings. -/
def pathParts (pathname : String) : List String :=
  ((jsSplit '/' pathname.data).filter (fun p => p ≠ [])).map String.mk

/-- `parseGitHubPath(pathname)` (`worker.js` lines 105-130). -/
def parseGitHubPath (pathname : String) : Option GitHubInfo :=
  match pathParts pathname with
  | [] => none
  | first :: rest =>
    if GITHUB_HOSTS.contains first then
      let githubPath := String.mk ('/' :: joinSep '/' (rest.map String.data))
      some { host := first, path := githubPath,
             fullUrl := "https://" ++ first ++ githubPath }
    else
      some { host := "github.com", path := pathname,
             fullUrl := "https://github.com" ++ pathname }

/-! ### URL model and `getOptimalCacheKey` (`worker.js` lines 203-220)

`new URL(url)` splits a URL string into its pre-query part and its
query parameters; `searchParams.set` edits the parameter list and
`toString()` re-serializes it with `application/x-www-form-urlencoded`
percent-encoding.  The embedding keeps the parsed shape: a `WUrl` is the
origin, the pathname, and the decoded query-parameter list; serializing
it back yields the URL string the worker uses as a cache key. -/

structure WUrl where
  origin : String
  pathname : String
  params : List (String × String)
deriving Repr, DecidableEq

/-- The `application/x-www-form-urlencoded` serializer leaves ASCII
alphanumerics and `*`, `-`, `.`, `_` unescaped. -/
def formSafe (c : Char) : Bool :=
  c.isAlphanum || c = '*' || c = '-' || c = '.' || c = '_'

/-- Upper-case hexadecimal digit for `n < 16`. -/
def hexDigitChar (n : Nat) : Char :=
  if n < 10 then Char.ofNat (48 + n) else Char.ofNat (55 + n)

/-- Numeric value of an upper-case hexadecimal digit (inverse of
`hexDigitChar` on `n < 16`). -/
def hexVal (c : Char) : Nat :=
  if c.toNat < 58 then c.toNat - 48 else c.toNat - 55

/-- UTF-8 byte sequence of a character (the URL serializer
percent-encodes each UTF-8 byte of a non-safe character). -/
def utf8Bytes (c : Char) : List Nat :=
  if c.toNat < 128 then [c.toNat]
  else if c.toNat < 2048 then
    [192 + c.toNat / 64, 128 + c.toNat % 64]
  else if c.toNat < 65536 then
    [224 + c.toNat / 4096, 128 + (c.toNat / 64) % 64, 128 + c.toNat % 64]
  else
    [240 + c.toNat / 262144, 128 + (c.toNat / 4096) % 64,
     128 + (c.toNat / 64) % 64, 128 + c.toNat % 64]

/-- `%XX` escape of one byte. -/
def pctByte (b : Nat) : List Char :=
  ['%', hexDigitChar (b / 16), hexDigitChar (b % 16)]

/-- `%XX%YY...` escape of a byte sequence. -/
def pctEncode (bs : List Nat) : List Char :=
  (bs.map pctByte).flatten

/-- Form-urlencoding of one character: safe characters stand for
themselves, space becomes `+`, everything else is percent-encoded
byte by byte. -/
def encodeChar (c : Char) : List Char :=
  if formSafe c then [c]
  else if c = ' ' then ['+']
  else pctEncode (utf8Bytes c)

/-- Form-urlencoding of a character list. -/
def encodeList : List Char → List Char
  | [] => []
  | c :: rest => encodeChar c ++ encodeList rest

/-- Form-urlencoding of a string. -/
def encStr (s : String) : List Char :=
  encodeList s.data

/-- `URLSearchParams.toString()`: `k=v` groups joined by `&`, each name
and value form-urlencoded. -/
def serializeParams : List (String × String) → List Char
  | [] => []
  | [(k, v)] => encStr k ++ '=' :: encStr v
  | (k, v) :: rest => encStr k ++ '=' :: encStr v ++ '&' :: serializeParams rest

/-- The `search` part of the serialized URL: empty for no parameters,
otherwise `?` followed by the serialized parameters. -/
def searchOf (ps : List (String × String)) : String :=
  match ps with
  | [] => ""
  | _ => String.mk ('?' :: serializeParams ps)

/-- `url.toString()`. -/
def urlToString (u : WUrl) : String :=
  u.origin ++ u.pathname ++ searchOf u.params

/-- Remove every parameter named `k`. -/
def removeAllParam (k : String) : List (String × String) → List (String × String)
  | [] => []
  | (k', v') :: rest =>
    if k' = k then removeAllParam k rest
    else (k', v') :: removeAllParam k rest

/-- `searchParams.set(k, v)`: replace the first parameter named `k`
(dropping any later duplicates), or append when absent. -/
def setParam (ps : List (String × String)) (k v : String) : List (String × String) :=
  match ps with
  | [] => [(k, v)]
  | (k', v') :: rest =>
    if k' = k then (k, v) :: removeAllParam k rest
    else (k', v') :: setParam rest k v

/-- First parameter named `k`, JS `searchParams.get(k)`. -/
def getParam (ps : List (String × String)) (k : String) : Option String :=
  match ps with
  | [] => none
  | (k', v') :: rest => if k' = k then some v' else getParam rest k

/-- The version the key builder actually uses: the provided version
when it is a truthy (non-empty) string, else the date stamp — the JS
source computes `version || getCacheVersion()`. -/
def resolveVersion (today : String) (version : Option String) : String :=
  match version with
  | none => today
  | some v => if v = "" then today else v

/-- `getOptimalCacheKey(url, acceptEncoding, version)` before the final
`toString()`: set the reserved `__v` parameter to the resolved version,
then, when the accept-encoding string is non-empty, tag `__enc` with
`br` if it contains `br`, else `gzip` if it contains `gzip`. -/
def getOptimalCacheUrl (today : String) (url : WUrl) (acceptEncoding : String)
    (version : Option String) : WUrl :=
  let cacheVersion := resolveVersion today version
  let ps1 := setParam url.params "__v" cacheVersion
  let ps2 :=
    if acceptEncoding ≠ "" then
      if containsStr acceptEncoding "br" then setParam ps1 "__enc" "br"
      else if containsStr acceptEncoding "gzip" then setParam ps1 "__enc" "gzip"
      else ps1
    else ps1
  { url with params := ps2 }

/-- `getOptimalCacheKey` (`worker.js` lines 203-220): the serialized
cache-key URL string. -/
def getOptimalCacheKey (today : String) (url : WUrl) (acceptEncoding : String)
    (version : Option String) : String :=
  urlToString (getOptimalCacheUrl today url acceptEncoding version)

/-! ### `fetchWithRetry` (`worker.js` lines 140-174)

Each loop iteration either produces an HTTP response or throws (timeout
abort / network failure).  The embedding feeds the loop an oracle
mapping the attempt index to its outcome and records, next to the final
result, the total number of attempts and the list of retry delays that
were slept, in order. -/

/-- Outcome of one upstream attempt: a response with its status code,
or a thrown error (represented by a numeric error id). -/
inductive Attempt where
  | resp (status : Nat)
  | err (e : Nat)
deriving Repr, DecidableEq

/-- `response.ok`: status in the 2xx range. -/
def respOk (status : Nat) : Bool :=
  200 ≤ status && status < 300

/-- The source's immediate-return test: `response.ok` or 4xx. -/
def noRetryStatus (status : Nat) : Bool :=
  respOk status || (400 ≤ status && status < 500)

deriving instance DecidableEq for Except

structure RetryRun where
  /-- `Except.error e` when the last attempt threw and the loop
  re-raised it; `Except.ok status` when a response was returned. -/
  result : Except Nat Nat
  /-- Total number of attempts performed. -/
  attemptsMade : Nat
  /-- The delays slept between attempts, in order (milliseconds). -/
  delays : List Nat
deriving Repr, DecidableEq

/-- The `for (let i = 0; i <= retries; i++)` loop body, from attempt
index `i` with `left` further attempts allowed after this one
(`left = retries - i`). -/
def fetchLoop (attempts : Nat → Attempt) (i : Nat) : Nat → RetryRun
  | 0 =>
    match attempts i with
    | .resp s => { result := .ok s, attemptsMade := i + 1, delays := [] }
    | .err e => { result := .error e, attemptsMade := i + 1, delays := [] }
  | left + 1 =>
    match attempts i with
    | .resp s =>
      if noRetryStatus s then
        { result := .ok s, attemptsMade := i + 1, delays := [] }
      else
        let r := fetchLoop attempts (i + 1) left
        { r with delays := RETRY_DELAY_MS * (i + 1) :: r.delays }
    | .err _ =>
      let r := fetchLoop attempts (i + 1) left
      { r with delays := RETRY_DELAY_MS * (i + 1) :: r.delays }

/-- `fetchWithRetry(url, options, retries)` as a function of the
attempt oracle and the retry budget. -/
def fetchWithRetry (attempts : Nat → Attempt) (retries : Nat) : RetryRun :=
  fetchLoop attempts 0 retries

/-! ### The orchestrator `fetch` handler (`worker.js` lines 222-411)

The handler is embedded as a pure function of: the current UTC day
stamp, the elapsed-time reading used for `X-Response-Time`, the edge
cache content (a map from cache-key URL strings to cached responses),
the upstream outcome (what `fetchWithRetry` would produce: a response
or a raised error), and the inbound request.  The result records the
response together with the observable effects: whether the upstream was
called, whether a cache lookup happened and under which key, and
whether an asynchronous cache write was scheduled and under which key.
Header names are kept in the case the source uses; lookups on the
request use the lower-case names the source passes to `headers.get`. -/

/-- First header with the given name, JS `headers.get` (absent → null). -/
def getHeader (hs : List (String × String)) (name : String) : Option String :=
  match hs with
  | [] => none
  | (k, v) :: rest => if k = name then some v else getHeader rest name

/-- `headers.set(name, value)`. -/
def setHeader (hs : List (String × String)) (name value : String) :
    List (String × String) :=
  setParam hs name value

/-- `headers.has(name)`. -/
def hasHeader (hs : List (String × String)) (name : String) : Bool :=
  (getHeader hs name).isSome

structure WRequest where
  method : String
  url : WUrl
  headers : List (String × String)
deriving Repr, DecidableEq

structure UpstreamResp where
  status : Nat
  statusText : String
  headers : List (String × String)
  body : Option String
deriving Repr, DecidableEq

structure CachedResp where
  status : Nat
  headers : List (String × String)
  body : Option String
deriving Repr, DecidableEq

structure FetchResult where
  status : Nat
  body : Option String
  headers : List (String × String)
  /-- Did the handler call `fetchWithRetry` (reach the upstream)? -/
  upstreamCalled : Bool
  /-- Did the handler consult the edge cache (`cache.match`)? -/
  cacheLookup : Bool
  /-- Did the cache lookup hit? -/
  cacheHit : Bool
  /-- The lookup key string, when the main (non-preflight, allowed
  method) flow computed one. -/
  lookupKey : Option String
  /-- The key under which `ctx.waitUntil(cache.put(...))` was
  scheduled, when it was. -/
  cacheWrite : Option String
deriving Repr, DecidableEq

/-- `!!request.headers.get("range")`: JS truthiness, so an absent header
and a present-but-empty header both count as "not a Range request". -/
def isRangeRequest (req : WRequest) : Bool :=
  match getHeader req.headers "range" with
  | none => false
  | some s => s ≠ ""

def corsPreflightHeaders : List (String × String) :=
  [("Access-Control-Allow-Origin", "*"),
   ("Access-Control-Allow-Methods", "GET,HEAD,OPTIONS"),
   ("Access-Control-Allow-Headers", "*"),
   ("Access-Control-Max-Age", "86400")]

def invalidPathBody : String :=
  "Invalid path. Usage: /[github.com]/user/repo/path/to/file"

/-- The response-header assembly of the MISS path (`worker.js` lines
351-396), applied to the upstream headers in source order. -/
def assembleMissHeaders (upstreamHeaders : List (String × String))
    (cacheStrategy : CacheStrategy) (cacheVersion upstreamUrl : String)
    (elapsedMs : Nat) : List (String × String) :=
  let h := upstreamHeaders
  let h := setHeader h "Cache-Control"
    ("public, max-age=" ++ toString cacheStrategy.browserTTL ++
     ", s-maxage=" ++ toString cacheStrategy.edgeTTL ++
     ", stale-while-revalidate=" ++ toString SWR_SECONDS)
  let h := setHeader h "Vary"
    (match getHeader h "Vary" with
     | some v => "Accept-Encoding, " ++ v
     | none => "Accept-Encoding")
  let h := setHeader h "Access-Control-Allow-Origin" "*"
  let h := setHeader h "Access-Control-Expose-Headers" "*"
  let h := setHeader h "X-Mirror-Version" cacheVersion
  let h := setHeader h "X-Cache-Strategy" cacheStrategy.description
  let h := setHeader h "X-GitHub-Target" upstreamUrl
  let h := setHeader h "X-Cache-Status" "MISS"
  let h := setHeader h "X-Response-Time" (toString elapsedMs ++ "ms")
  let h := setHeader h "X-Content-Type-Options" "nosniff"
  let h := setHeader h "X-Frame-Options" "SAMEORIGIN"
  let h := setHeader h "Connection" "keep-alive"
  setHeader h "Keep-Alive" "timeout=60, max=1000"

/-- The normalized ETag the handler will adopt for the final cache key
(`worker.js` lines 357-364): only under an ETag-validating strategy,
and only when `extractETag` yields a truthy string. -/
def etagAdopted (cacheStrategy : CacheStrategy) (upstreamResp : UpstreamResp) :
    Option String :=
  if cacheStrategy.useETag then
    match extractETag (getHeader upstreamResp.headers "etag") with
    | some t => if t = "" then none else some t
    | none => none
  else none

/-- The response built from a cache hit (`worker.js` lines 291-302). -/
def hitResult (elapsedMs : Nat) (cacheStrategy : CacheStrategy)
    (initialCacheKey : String) (hitResp : CachedResp) : FetchResult :=
  let h := setHeader hitResp.headers "X-Cache-Status" "HIT"
  let h := setHeader h "X-Cache-Strategy" cacheStrategy.description
  let h := setHeader h "X-Response-Time" (toString elapsedMs ++ "ms")
  { status := hitResp.status, body := hitResp.body, headers := h,
    upstreamCalled := false, cacheLookup := true, cacheHit := true,
    lookupKey := some initialCacheKey, cacheWrite := none }

/-- The response built on a cache miss from the upstream response
(`worker.js` lines 351-409), with its scheduled cache write. -/
def missResult (today : String) (elapsedMs : Nat) (req : WRequest)
    (githubInfo : GitHubInfo) (upstreamResp : UpstreamResp) : FetchResult :=
  let cacheStrategy := getCacheStrategy githubInfo.path
  let acceptEncoding := (getHeader req.headers "accept-encoding").getD ""
  let initialCacheKey := getOptimalCacheKey today req.url acceptEncoding none
  let upstreamUrl := githubInfo.fullUrl ++ searchOf req.url.params
  let isRange := isRangeRequest req
  let etagUsed := etagAdopted cacheStrategy upstreamResp
  let finalCacheKey :=
    match etagUsed with
    | some t => getOptimalCacheKey today req.url acceptEncoding (some t)
    | none => initialCacheKey
  let cacheVersion := (etagUsed).getD today
  let h := assembleMissHeaders upstreamResp.headers cacheStrategy
    cacheVersion upstreamUrl elapsedMs
  { status := upstreamResp.status, body := upstreamResp.body,
    headers := h,
    upstreamCalled := true,
    cacheLookup := req.method == "GET" && !isRange, cacheHit := false,
    lookupKey := some initialCacheKey,
    cacheWrite :=
      if req.method == "GET" && upstreamResp.status == 200 && !isRange
      then some finalCacheKey else none }

/-- The post-validation flow of the handler (`worker.js` lines 253-409):
strategy selection, cache key, cache lookup, then either the hit
response or (on a miss) the upstream outcome mapped through the miss
assembly — an upstream raise propagates. -/
def mainFlow (today : String) (elapsedMs : Nat)
    (cacheM : String → Option CachedResp)
    (upstream : Except Nat UpstreamResp) (req : WRequest)
    (githubInfo : GitHubInfo) : Except Nat FetchResult :=
  let cacheStrategy := getCacheStrategy githubInfo.path
  let acceptEncoding := (getHeader req.headers "accept-encoding").getD ""
  let initialCacheKey := getOptimalCacheKey today req.url acceptEncoding none
  let doLookup := req.method == "GET" && !(isRangeRequest req)
  match (if doLookup then cacheM initialCacheKey else none) with
  | some hitResp =>
    .ok (hitResult elapsedMs cacheStrategy initialCacheKey hitResp)
  | none => upstream.map (missResult today elapsedMs req githubInfo)

/-- The worker's `fetch(request, env, ctx)` handler (`worker.js` lines
222-411).  `today` is the current `getCacheVersion()` day stamp,
`elapsedMs` the `Date.now()` difference used for `X-Response-Time`,
`cacheM` the edge-cache content keyed by cache-key URL string, and
`upstream` the outcome `fetchWithRetry` would surface (`Except.error`
when every attempt threw, in which case the handler itself raises). -/
def workerFetch (today : String) (elapsedMs : Nat)
    (cacheM : String → Option CachedResp)
    (upstream : Except Nat UpstreamResp) (req : WRequest) :
    Except Nat FetchResult :=
  match parseGitHubPath req.url.pathname with
  | none =>
    .ok { status := 400, body := some invalidPathBody,
          headers := [("Content-Type", "text/plain")],
          upstreamCalled := false, cacheLookup := false, cacheHit := false,
          lookupKey := none, cacheWrite := none }
  | some githubInfo =>
    if req.method = "OPTIONS" then
      .ok { status := 204, body := none, headers := corsPreflightHeaders,
            upstreamCalled := false, cacheLookup := false, cacheHit := false,
            lookupKey := none, cacheWrite := none }
    else if req.method ≠ "GET" ∧ req.method ≠ "HEAD" then
      .ok { status := 405, body := some "Method Not Allowed", headers := [],
            upstreamCalled := false, cacheLookup := false, cacheHit := false,
            lookupKey := none, cacheWrite := none }
    else
      mainFlow today elapsedMs cacheM upstream req githubInfo

/-- A one-entry edge cache: `cache.put(k, resp)` into an empty cache,
as a match function. -/
def cacheWithEntry (k : String) (resp : CachedResp) : String → Option CachedResp :=
  fun q => if q = k then some resp else none

/-! ### Helper lemmas: characters and hex digits -/

theorem char_toNat_lt (c : Char) : c.toNat < 1114112 := by
  have h := c.valid
  show c.val.toNat < 1114112
  rcases h with h | h <;> omega

theorem char_toNat_inj {c₁ c₂ : Char} (h : c₁.toNat = c₂.toNat) : c₁ = c₂ := by
  rw [← Char.ofNat_toNat c₁, ← Char.ofNat_toNat c₂, h]

theorem hexVal_hexDigitChar {n : Nat} (h : n < 16) :
    hexVal (hexDigitChar n) = n := by
  interval_cases n <;> decide

theorem hexDigitChar_ne_amp {n : Nat} (h : n < 16) :
    hexDigitChar n ≠ '&' ∧ hexDigitChar n ≠ '=' := by
  interval_cases n <;> decide

/-! ### Helper lemmas: UTF-8 byte sequences -/

theorem utf8Bytes_lt (c : Char) : ∀ b ∈ utf8Bytes c, b < 256 := by
  have hc := char_toNat_lt c
  intro b hb
  unfold utf8Bytes at hb
  split_ifs at hb <;> simp at hb <;> omega

theorem utf8Bytes_shape (c : Char) :
    ∃ b bs, utf8Bytes c = b :: bs ∧
      ((b < 128 ∧ bs.length = 0) ∨ (192 ≤ b ∧ b < 224 ∧ bs.length = 1) ∨
       (224 ≤ b ∧ b < 240 ∧ bs.length = 2) ∨ (240 ≤ b ∧ bs.length = 3)) := by
  have hc := char_toNat_lt c
  unfold utf8Bytes
  split_ifs with h1 h2 h3
  · exact ⟨_, _, rfl, Or.inl ⟨h1, rfl⟩⟩
  · exact ⟨_, _, rfl, Or.inr (Or.inl ⟨by omega, by omega, rfl⟩)⟩
  · exact ⟨_, _, rfl, Or.inr (Or.inr (Or.inl ⟨by omega, by omega, rfl⟩))⟩
  · exact ⟨_, _, rfl, Or.inr (Or.inr (Or.inr ⟨by omega, rfl⟩))⟩

theorem utf8Bytes_ne_nil (c : Char) : utf8Bytes c ≠ [] := by
  obtain ⟨b, bs, hbs, -⟩ := utf8Bytes_shape c
  simp [hbs]

theorem utf8Bytes_inj {c₁ c₂ : Char} (h : utf8Bytes c₁ = utf8Bytes c₂) :
    c₁ = c₂ := by
  have h1 := char_toNat_lt c₁
  have h2 := char_toNat_lt c₂
  apply char_toNat_inj
  unfold utf8Bytes at h
  split_ifs at h <;> simp at h <;> omega

/-! ### Helper lemmas: percent encoding -/

theorem pctEncode_cons (b : Nat) (bs : List Nat) :
    pctEncode (b :: bs) =
      '%' :: hexDigitChar (b / 16) :: hexDigitChar (b % 16) :: pctEncode bs := rfl

theorem pctEncode_length (bs : List Nat) :
    (pctEncode bs).length = 3 * bs.length := by
  induction bs with
  | nil => rfl
  | cons b t ih => rw [pctEncode_cons]; simp [ih]; omega

theorem pctEncode_inj {bs₁ bs₂ : List Nat}
    (hb₁ : ∀ b ∈ bs₁, b < 256) (hb₂ : ∀ b ∈ bs₂, b < 256)
    (h : pctEncode bs₁ = pctEncode bs₂) : bs₁ = bs₂ := by
  induction bs₁ generalizing bs₂ with
  | nil =>
    cases bs₂ with
    | nil => rfl
    | cons b t => rw [pctEncode_cons] at h; exact absurd h (by simp [pctEncode])
  | cons b t ih =>
    cases bs₂ with
    | nil => rw [pctEncode_cons] at h; exact absurd h (by simp [pctEncode])
    | cons b' t' =>
      rw [pctEncode_cons, pctEncode_cons] at h
      have hb : b < 256 := hb₁ b (by simp)
      have hb' : b' < 256 := hb₂ b' (by simp)
      injection h with _ h
      injection h with hhi h
      injection h with hlo h
      have ehi : hexVal (hexDigitChar (b / 16)) = hexVal (hexDigitChar (b' / 16)) := by
        rw [hhi]
      have elo : hexVal (hexDigitChar (b % 16)) = hexVal (hexDigitChar (b' % 16)) := by
        rw [hlo]
      rw [hexVal_hexDigitChar (by omega), hexVal_hexDigitChar (by omega)] at ehi
      rw [hexVal_hexDigitChar (by omega), hexVal_hexDigitChar (by omega)] at elo
      have hbb : b = b' := by omega
      subst hbb
      have ht : t = t' := ih (fun x hx => hb₁ x (by simp [hx])) (fun x hx => hb₂ x (by simp [hx])) h
      rw [ht]

theorem mem_pctEncode {x : Char} {bs : List Nat} (hb : ∀ b ∈ bs, b < 256)
    (hx : x ∈ pctEncode bs) : x = '%' ∨ ∃ n, n < 16 ∧ x = hexDigitChar n := by
  induction bs with
  | nil => exact absurd hx (by simp [pctEncode])
  | cons b t ih =>
    rw [pctEncode_cons] at hx
    have hblt : b < 256 := hb b (by simp)
    simp only [List.mem_cons] at hx
    rcases hx with rfl | rfl | rfl | hx
    · exact Or.inl rfl
    · exact Or.inr ⟨b / 16, by omega, rfl⟩
    · exact Or.inr ⟨b % 16, by omega, rfl⟩
    · exact ih (fun y hy => hb y (by simp [hy])) hx

/-! ### Helper lemmas: the character encoder is a prefix code -/

theorem encodeChar_ne_nil (c : Char) : encodeChar c ≠ [] := by
  unfold encodeChar
  split_ifs with h1 h2
  · simp
  · simp
  · obtain ⟨b, bs, hbs, -⟩ := utf8Bytes_shape c
    rw [hbs, pctEncode_cons]
    simp

theorem encodeChar_ne_amp (c : Char) : '&' ∉ encodeChar c ∧ '=' ∉ encodeChar c := by
  unfold encodeChar
  split_ifs with h1 h2
  · constructor <;> intro hx <;> simp at hx <;> subst hx <;> simp [formSafe] at h1
  · constructor <;> intro hx <;> simp at hx
  · constructor <;> intro hx <;>
      rcases mem_pctEncode (utf8Bytes_lt c) hx with h | ⟨n, hn, h⟩
    · exact absurd h.symm (by decide)
    · exact (hexDigitChar_ne_amp hn).1 h.symm
    · exact absurd h.symm (by decide)
    · exact (hexDigitChar_ne_amp hn).2 h.symm

/-- Classification of `encodeChar` by branch. -/
theorem encodeChar_eq (c : Char) :
    (formSafe c = true ∧ encodeChar c = [c]) ∨
    (formSafe c = false ∧ c = ' ' ∧ encodeChar c = ['+']) ∨
    (formSafe c = false ∧ c ≠ ' ' ∧ encodeChar c = pctEncode (utf8Bytes c)) := by
  unfold encodeChar
  split_ifs with h1 h2
  · exact Or.inl ⟨h1, rfl⟩
  · exact Or.inr (Or.inl ⟨by simpa using h1, h2, rfl⟩)
  · exact Or.inr (Or.inr ⟨by simpa using h1, h2, rfl⟩)

theorem encodeChar_append_inj {c₁ c₂ : Char} {r₁ r₂ : List Char}
    (h : encodeChar c₁ ++ r₁ = encodeChar c₂ ++ r₂) : c₁ = c₂ ∧ r₁ = r₂ := by
  rcases encodeChar_eq c₁ with ⟨s1, e1⟩ | ⟨s1, hsp1, e1⟩ | ⟨s1, hsp1, e1⟩ <;>
    rcases encodeChar_eq c₂ with ⟨s2, e2⟩ | ⟨s2, hsp2, e2⟩ | ⟨s2, hsp2, e2⟩ <;>
    rw [e1, e2] at h
  -- safe / safe
  · injection h with h1 h2; exact ⟨h1, h2⟩
  -- safe / space: the head would be '+', which is not form-safe
  · exfalso
    injection h with h1 _
    rw [h1] at s1
    exact absurd s1 (by decide)
  -- safe / percent: the head would be '%', which is not form-safe
  · exfalso
    obtain ⟨b, bs, hbs, -⟩ := utf8Bytes_shape c₂
    rw [hbs, pctEncode_cons] at h
    injection h with h1 _
    rw [h1] at s1
    exact absurd s1 (by decide)
  -- space / safe
  · exfalso
    injection h with h1 _
    rw [← h1] at s2
    exact absurd s2 (by decide)
  -- space / space
  · injection h with _ h2
    exact ⟨hsp1.trans hsp2.symm, h2⟩
  -- space / percent
  · exfalso
    obtain ⟨b, bs, hbs, -⟩ := utf8Bytes_shape c₂
    rw [hbs, pctEncode_cons] at h
    injection h with h1 _
    exact absurd h1 (by decide)
  -- percent / safe
  · exfalso
    obtain ⟨b, bs, hbs, -⟩ := utf8Bytes_shape c₁
    rw [hbs, pctEncode_cons] at h
    injection h with h1 _
    rw [← h1] at s2
    exact absurd s2 (by decide)
  -- percent / space
  · exfalso
    obtain ⟨b, bs, hbs, -⟩ := utf8Bytes_shape c₁
    rw [hbs, pctEncode_cons] at h
    injection h with h1 _
    exact absurd h1 (by decide)
  -- percent / percent
  · obtain ⟨b₁, bs₁, hbs₁, d₁⟩ := utf8Bytes_shape c₁
    obtain ⟨b₂, bs₂, hbs₂, d₂⟩ := utf8Bytes_shape c₂
    have hb₁ : b₁ < 256 := utf8Bytes_lt c₁ b₁ (by rw [hbs₁]; simp)
    have hb₂ : b₂ < 256 := utf8Bytes_lt c₂ b₂ (by rw [hbs₂]; simp)
    rw [hbs₁, hbs₂, pctEncode_cons, pctEncode_cons] at h
    simp only [List.cons_append] at h
    injection h with _ h
    injection h with hhi h
    injection h with hlo h
    have ehi : hexVal (hexDigitChar (b₁ / 16)) = hexVal (hexDigitChar (b₂ / 16)) := by
      rw [hhi]
    have elo : hexVal (hexDigitChar (b₁ % 16)) = hexVal (hexDigitChar (b₂ % 16)) := by
      rw [hlo]
    rw [hexVal_hexDigitChar (by omega), hexVal_hexDigitChar (by omega)] at ehi
    rw [hexVal_hexDigitChar (by omega), hexVal_hexDigitChar (by omega)] at elo
    have hbb : b₁ = b₂ := by omega
    have hlen : bs₁.length = bs₂.length := by omega
    have hplen : (pctEncode bs₁).length = (pctEncode bs₂).length := by
      rw [pctEncode_length, pctEncode_length, hlen]
    obtain ⟨hpe, hr⟩ := List.append_inj h hplen
    have hbseq : bs₁ = bs₂ :=
      pctEncode_inj (fun x hx => utf8Bytes_lt c₁ x (by rw [hbs₁]; simp [hx]))
        (fun x hx => utf8Bytes_lt c₂ x (by rw [hbs₂]; simp [hx])) hpe
    have : utf8Bytes c₁ = utf8Bytes c₂ := by rw [hbs₁, hbs₂, hbb, hbseq]
    exact ⟨utf8Bytes_inj this, hr⟩

theorem encodeList_inj {l₁ l₂ : List Char}
    (h : encodeList l₁ = encodeList l₂) : l₁ = l₂ := by
  induction l₁ generalizing l₂ with
  | nil =>
    cases l₂ with
    | nil => rfl
    | cons c t =>
      exfalso
      have : encodeChar c ++ encodeList t = [] := h.symm
      exact encodeChar_ne_nil c (List.append_eq_nil.mp this).1
  | cons c t ih =>
    cases l₂ with
    | nil =>
      exfalso
      have : encodeChar c ++ encodeList t = [] := h
      exact encodeChar_ne_nil c (List.append_eq_nil.mp this).1
    | cons c' t' =>
      obtain ⟨hc, hr⟩ :=
        @encodeChar_append_inj c c' (encodeList t) (encodeList t') h
      rw [hc, ih hr]

theorem encStr_inj {s₁ s₂ : String} (h : encStr s₁ = encStr s₂) : s₁ = s₂ :=
  String.ext (encodeList_inj h)

theorem encStr_ne_amp (s : String) : '&' ∉ encStr s ∧ '=' ∉ encStr s := by
  unfold encStr
  induction s.data with
  | nil => simp [encodeList]
  | cons c t ih =>
    show '&' ∉ encodeChar c ++ encodeList t ∧ '=' ∉ encodeChar c ++ encodeList t
    simp only [List.mem_append, not_or]
    exact ⟨⟨(encodeChar_ne_amp c).1, ih.1⟩, ⟨(encodeChar_ne_amp c).2, ih.2⟩⟩

/-! ### Helper lemmas: query-string serialization -/

/-- Lists that avoid the separator, followed by the separator, can be
recovered from their concatenation. -/
theorem sep_split_inj {a b t₁ t₂ : List Char} {x : Char}
    (ha : x ∉ a) (hb : x ∉ b) (h : a ++ x :: t₁ = b ++ x :: t₂) :
    a = b ∧ t₁ = t₂ := by
  induction a generalizing b with
  | nil =>
    cases b with
    | nil => simpa using h
    | cons c bt =>
      exfalso
      injection h with h1 h2
      exact hb (by rw [h1]; simp)
  | cons c at' ih =>
    cases b with
    | nil =>
      exfalso
      injection h with h1 h2
      exact ha (by rw [← h1]; simp)
    | cons c' bt =>
      injection h with h1 h2
      obtain ⟨e1, e2⟩ := ih (fun hx => ha (by simp [hx])) (fun hx => hb (by simp [hx])) h2
      rw [h1, e1, e2]
      exact ⟨rfl, rfl⟩

theorem serializeParams_single (k v : String) :
    serializeParams [(k, v)] = encStr k ++ '=' :: encStr v := rfl

theorem serializeParams_cons (k v : String) (p : String × String)
    (rest : List (String × String)) :
    serializeParams ((k, v) :: p :: rest) =
      encStr k ++ '=' :: (encStr v ++ '&' :: serializeParams (p :: rest)) := by
  simp [serializeParams]

/-- Two parameter lists with the same names serialize equally only if
they are equal. -/
theorem serializeParams_inj {ps₁ ps₂ : List (String × String)}
    (hk : ps₁.map Prod.fst = ps₂.map Prod.fst)
    (h : serializeParams ps₁ = serializeParams ps₂) : ps₁ = ps₂ := by
  induction ps₁ generalizing ps₂ with
  | nil =>
    cases ps₂ with
    | nil => rfl
    | cons p t => simp at hk
  | cons p t ih =>
    obtain ⟨k, v⟩ := p
    cases ps₂ with
    | nil => simp at hk
    | cons p' t' =>
      obtain ⟨k', v'⟩ := p'
      simp only [List.map_cons, List.cons.injEq] at hk
      obtain ⟨hkk, hkt⟩ := hk
      subst hkk
      cases t with
      | nil =>
        cases t' with
        | cons q u => simp at hkt
        | nil =>
          rw [serializeParams_single, serializeParams_single] at h
          have h2 := List.append_cancel_left h
          injection h2 with _ h3
          rw [encStr_inj h3]
      | cons q u =>
        cases t' with
        | nil => simp at hkt
        | cons q' u' =>
          rw [serializeParams_cons, serializeParams_cons] at h
          have h2 := List.append_cancel_left h
          injection h2 with _ h3
          obtain ⟨hv, hrest⟩ :=
            sep_split_inj (encStr_ne_amp v).1 (encStr_ne_amp v').1 h3
          have ht := ih hkt hrest
          rw [encStr_inj hv, ht]

/-- Two structured URLs with the same origin, pathname and parameter
names are equal when they serialize to the same string. -/
theorem urlToString_inj {u₁ u₂ : WUrl}
    (ho : u₁.origin = u₂.origin) (hp : u₁.pathname = u₂.pathname)
    (hk : u₁.params.map Prod.fst = u₂.params.map Prod.fst)
    (h : urlToString u₁ = urlToString u₂) : u₁ = u₂ := by
  obtain ⟨o₁, p₁, ps₁⟩ := u₁
  obtain ⟨o₂, p₂, ps₂⟩ := u₂
  simp only at ho hp hk
  subst ho; subst hp
  unfold urlToString at h
  simp only at h
  have hs : searchOf ps₁ = searchOf ps₂ := by
    have hd := congrArg String.data h
    rw [String.data_append, String.data_append, String.data_append,
      String.data_append] at hd
    have := List.append_cancel_left (List.append_cancel_left
      ((List.append_assoc _ _ _).symm.trans
        (hd.trans (List.append_assoc _ _ _))))
    exact String.ext this
  suffices hps : ps₁ = ps₂ by rw [hps]
  cases ps₁ with
  | nil =>
    cases ps₂ with
    | nil => rfl
    | cons p t => simp at hk
  | cons p t =>
    cases ps₂ with
    | nil => simp at hk
    | cons p' t' =>
      apply serializeParams_inj hk
      have h2 : '?' :: serializeParams (p :: t) = '?' :: serializeParams (p' :: t') :=
        congrArg String.data hs
      injection h2

/-! ### Helper lemmas: `searchParams.set` / `get` -/

theorem getParam_cons (a b k : String) (t : List (String × String)) :
    getParam ((a, b) :: t) k = if a = k then some b else getParam t k := rfl

theorem removeAllParam_cons (a b k : String) (t : List (String × String)) :
    removeAllParam k ((a, b) :: t) =
      if a = k then removeAllParam k t else (a, b) :: removeAllParam k t := rfl

theorem setParam_nil (k v : String) : setParam [] k v = [(k, v)] := rfl

theorem setParam_cons (a b k v : String) (t : List (String × String)) :
    setParam ((a, b) :: t) k v =
      if a = k then (k, v) :: removeAllParam k t else (a, b) :: setParam t k v := rfl

theorem removeAllParam_keys_congr {ps₁ ps₂ : List (String × String)} (k : String)
    (hk : ps₁.map Prod.fst = ps₂.map Prod.fst) :
    (removeAllParam k ps₁).map Prod.fst = (removeAllParam k ps₂).map Prod.fst := by
  induction ps₁ generalizing ps₂ with
  | nil => cases ps₂ with
    | nil => rfl
    | cons p t => simp at hk
  | cons p t ih =>
    cases ps₂ with
    | nil => simp at hk
    | cons p' t' =>
      obtain ⟨a, b⟩ := p
      obtain ⟨a', b'⟩ := p'
      simp only [List.map_cons, List.cons.injEq] at hk
      obtain ⟨rfl, hkt⟩ := hk
      unfold removeAllParam
      by_cases hak : a = k
      · simp only [if_pos hak]
        exact ih hkt
      · simp only [if_neg hak, List.map_cons, ih hkt]

theorem setParam_keys_congr {ps₁ ps₂ : List (String × String)} (k v₁ v₂ : String)
    (hk : ps₁.map Prod.fst = ps₂.map Prod.fst) :
    (setParam ps₁ k v₁).map Prod.fst = (setParam ps₂ k v₂).map Prod.fst := by
  induction ps₁ generalizing ps₂ with
  | nil => cases ps₂ with
    | nil => rfl
    | cons p t => simp at hk
  | cons p t ih =>
    cases ps₂ with
    | nil => simp at hk
    | cons p' t' =>
      obtain ⟨a, b⟩ := p
      obtain ⟨a', b'⟩ := p'
      simp only [List.map_cons, List.cons.injEq] at hk
      obtain ⟨rfl, hkt⟩ := hk
      unfold setParam
      by_cases hak : a = k
      · simp only [if_pos hak, List.map_cons, removeAllParam_keys_congr k hkt]
      · simp only [if_neg hak, List.map_cons, ih hkt]

theorem getParam_removeAllParam {k k' : String} (h : k ≠ k')
    (ps : List (String × String)) :
    getParam (removeAllParam k' ps) k = getParam ps k := by
  induction ps with
  | nil => rfl
  | cons p t ih =>
    obtain ⟨a, b⟩ := p
    rw [removeAllParam_cons, getParam_cons]
    by_cases hak : a = k'
    · rw [if_pos hak, ih, if_neg (fun hx : a = k => h (hx.symm.trans hak))]
    · rw [if_neg hak, getParam_cons]
      by_cases hk2 : a = k
      · rw [if_pos hk2, if_pos hk2]
      · rw [if_neg hk2, if_neg hk2, ih]

theorem getParam_setParam_same (ps : List (String × String)) (k v : String) :
    getParam (setParam ps k v) k = some v := by
  induction ps with
  | nil => simp [setParam_nil, getParam_cons]
  | cons p t ih =>
    obtain ⟨a, b⟩ := p
    rw [setParam_cons]
    by_cases hak : a = k
    · rw [if_pos hak, getParam_cons, if_pos rfl]
    · rw [if_neg hak, getParam_cons, if_neg hak, ih]

theorem getParam_setParam_other {k k' : String} (h : k ≠ k')
    (ps : List (String × String)) (v : String) :
    getParam (setParam ps k' v) k = getParam ps k := by
  induction ps with
  | nil =>
    rw [setParam_nil, getParam_cons, if_neg (fun hx : k' = k => h hx.symm)]
  | cons p t ih =>
    obtain ⟨a, b⟩ := p
    rw [setParam_cons]
    by_cases hak : a = k'
    · rw [if_pos hak, getParam_cons, if_neg (fun hx : k' = k => h hx.symm),
        getParam_removeAllParam h, getParam_cons,
        if_neg (fun hx : a = k => h (hx.symm.trans hak))]
    · rw [if_neg hak, getParam_cons, getParam_cons]
      by_cases hk2 : a = k
      · rw [if_pos hk2, if_pos hk2]
      · rw [if_neg hk2, if_neg hk2, ih]

theorem mem_removeAllParam {k w k' : String}
    {ps : List (String × String)} (h : (k, w) ∈ removeAllParam k' ps) : k ≠ k' := by
  induction ps with
  | nil => exact absurd h (by simp [removeAllParam])
  | cons p t ih =>
    obtain ⟨a, b⟩ := p
    rw [removeAllParam_cons] at h
    by_cases hak : a = k'
    · rw [if_pos hak] at h
      exact ih h
    · rw [if_neg hak] at h
      rcases List.mem_cons.mp h with heq | hmem
      · have hka : k = a := congrArg Prod.fst heq
        exact fun hkk => hak (hka.symm.trans hkk)
      · exact ih hmem

theorem mem_setParam_value {ps : List (String × String)} {k v w : String}
    (h : (k, w) ∈ setParam ps k v) : w = v := by
  induction ps with
  | nil =>
    rw [setParam_nil] at h
    rcases List.mem_cons.mp h with heq | hmem
    · exact congrArg Prod.snd heq
    · exact absurd hmem (by simp)
  | cons p t ih =>
    obtain ⟨a, b⟩ := p
    rw [setParam_cons] at h
    by_cases hak : a = k
    · rw [if_pos hak] at h
      rcases List.mem_cons.mp h with heq | hmem
      · exact congrArg Prod.snd heq
      · exact absurd rfl (mem_removeAllParam hmem)
    · rw [if_neg hak] at h
      rcases List.mem_cons.mp h with heq | hmem
      · exact absurd (congrArg Prod.fst heq).symm hak
      · exact ih hmem

theorem getParam_append_first {pre post : List (String × String)} {k w : String}
    (h : k ∉ pre.map Prod.fst) :
    getParam (pre ++ (k, w) :: post) k = some w := by
  induction pre with
  | nil => simp [getParam]
  | cons p t ih =>
    obtain ⟨a, b⟩ := p
    simp only [List.map_cons, List.mem_cons, not_or] at h
    simp only [List.cons_append]
    unfold getParam
    simp only [if_neg (fun hx : a = k => h.1 hx.symm)]
    exact ih h.2

/-! ### Helper lemmas: the cache-key builder -/

theorem getOptimalCacheUrl_origin (today : String) (u : WUrl) (e : String)
    (ver : Option String) :
    (getOptimalCacheUrl today u e ver).origin = u.origin ∧
    (getOptimalCacheUrl today u e ver).pathname = u.pathname := by
  unfold getOptimalCacheUrl
  exact ⟨rfl, rfl⟩

theorem getOptimalCacheUrl_keys_congr {u₁ u₂ : WUrl} (today e : String)
    (a b : Option String) (hk : u₁.params.map Prod.fst = u₂.params.map Prod.fst) :
    (getOptimalCacheUrl today u₁ e a).params.map Prod.fst =
      (getOptimalCacheUrl today u₂ e b).params.map Prod.fst := by
  unfold getOptimalCacheUrl
  have h1 := setParam_keys_congr "__v" (resolveVersion today a) (resolveVersion today b) hk
  by_cases he : e ≠ ""
  · by_cases hbr : containsStr e "br"
    · simp only [if_pos he, if_pos hbr]
      exact setParam_keys_congr "__enc" "br" "br" h1
    · by_cases hgz : containsStr e "gzip"
      · simp only [if_pos he, if_neg hbr, if_pos hgz]
        exact setParam_keys_congr "__enc" "gzip" "gzip" h1
      · simp only [if_pos he, if_neg hbr, if_neg hgz]
        exact h1
  · simp only [if_neg he]
    exact h1

theorem getParam_v_of_cacheUrl (today : String) (u : WUrl) (e : String)
    (ver : Option String) :
    getParam (getOptimalCacheUrl today u e ver).params "__v" =
      some (resolveVersion today ver) := by
  unfold getOptimalCacheUrl
  have hne : ("__v" : String) ≠ "__enc" := by decide
  by_cases he : e ≠ ""
  · by_cases hbr : containsStr e "br"
    · simp only [if_pos he, if_pos hbr]
      rw [getParam_setParam_other hne, getParam_setParam_same]
    · by_cases hgz : containsStr e "gzip"
      · simp only [if_pos he, if_neg hbr, if_pos hgz]
        rw [getParam_setParam_other hne, getParam_setParam_same]
      · simp only [if_pos he, if_neg hbr, if_neg hgz]
        rw [getParam_setParam_same]
  · simp only [if_neg he]
    rw [getParam_setParam_same]

theorem getParam_enc_of_cacheUrl {e : String} (hbr : containsStr e "br" = false)
    (hgz : containsStr e "gzip" = false) (today : String) (u : WUrl)
    (ver : Option String) :
    getParam (getOptimalCacheUrl today u e ver).params "__enc" =
      getParam u.params "__enc" := by
  unfold getOptimalCacheUrl
  have hne : ("__enc" : String) ≠ "__v" := by decide
  by_cases he : e ≠ ""
  · simp only [if_pos he, hbr, hgz, Bool.false_eq_true, if_false]
    rw [getParam_setParam_other hne]
  · simp only [if_neg he]
    rw [getParam_setParam_other hne]

/-- The central injectivity fact: equal cache-key strings built from
URLs with the same origin, pathname and parameter names, with the same
accept-encoding, force the structured cache URLs to be equal. -/
theorem getOptimalCacheKey_inj_core {today e : String} {u₁ u₂ : WUrl}
    {a b : Option String}
    (ho : u₁.origin = u₂.origin) (hp : u₁.pathname = u₂.pathname)
    (hk : u₁.params.map Prod.fst = u₂.params.map Prod.fst)
    (h : getOptimalCacheKey today u₁ e a = getOptimalCacheKey today u₂ e b) :
    getOptimalCacheUrl today u₁ e a = getOptimalCacheUrl today u₂ e b := by
  apply urlToString_inj
  · rw [(getOptimalCacheUrl_origin today u₁ e a).1,
      (getOptimalCacheUrl_origin today u₂ e b).1, ho]
  · rw [(getOptimalCacheUrl_origin today u₁ e a).2,
      (getOptimalCacheUrl_origin today u₂ e b).2, hp]
  · exact getOptimalCacheUrl_keys_congr today e a b hk
  · exact h

/-- Equal cache keys for the same URL and encoding force equal resolved
versions. -/
theorem getOptimalCacheKey_version_eq {today e : String} {u : WUrl}
    {a b : Option String}
    (h : getOptimalCacheKey today u e a = getOptimalCacheKey today u e b) :
    resolveVersion today a = resolveVersion today b := by
  have hurl := getOptimalCacheKey_inj_core rfl rfl rfl h
  have h1 := getParam_v_of_cacheUrl today u e a
  have h2 := getParam_v_of_cacheUrl today u e b
  rw [hurl] at h1
  rw [h1] at h2
  injection h2

/-! ### Helper lemmas: the retry loop -/

theorem fetchLoop_immediate {attempts : Nat → Attempt} {i s : Nat}
    (ha : attempts i = .resp s) (hs : noRetryStatus s = true) (left : Nat) :
    fetchLoop attempts i left =
      { result := .ok s, attemptsMade := i + 1, delays := [] } := by
  cases left with
  | zero => simp [fetchLoop, ha]
  | succ n => simp [fetchLoop, ha, hs]

/-- When the attempt at index `i` is retried (5xx/3xx response or a
thrown error, with budget left), the run is the tail run with one more
leading delay. -/
theorem fetchLoop_retry {attempts : Nat → Attempt} {i : Nat}
    (ha : (∃ s, attempts i = .resp s ∧ noRetryStatus s = false) ∨
      (∃ e, attempts i = .err e)) (left : Nat) :
    (fetchLoop attempts i (left + 1)).result =
        (fetchLoop attempts (i + 1) left).result ∧
    (fetchLoop attempts i (left + 1)).attemptsMade =
        (fetchLoop attempts (i + 1) left).attemptsMade ∧
    (fetchLoop attempts i (left + 1)).delays =
        RETRY_DELAY_MS * (i + 1) :: (fetchLoop attempts (i + 1) left).delays := by
  rcases ha with ⟨s, ha, hs⟩ | ⟨e, ha⟩
  · simp [fetchLoop, ha, hs]
  · simp [fetchLoop, ha]

theorem fetchLoop_attempts_le (attempts : Nat → Attempt) (i left : Nat) :
    (fetchLoop attempts i left).attemptsMade ≤ i + left + 1 := by
  induction left generalizing i with
  | zero => cases h : attempts i <;> simp [fetchLoop, h]
  | succ n ih =>
    cases h : attempts i with
    | resp s =>
      by_cases hs : noRetryStatus s
      · rw [fetchLoop_immediate h hs]
        show i + 1 ≤ i + (n + 1) + 1
        omega
      · rw [(fetchLoop_retry (Or.inl ⟨s, h, Bool.not_eq_true _ ▸ hs⟩) n).2.1]
        have := ih (i + 1)
        omega
    | err e =>
      rw [(fetchLoop_retry (Or.inr ⟨e, h⟩) n).2.1]
      have := ih (i + 1)
      omega

theorem fetchLoop_attempts_ge (attempts : Nat → Attempt) (i left : Nat) :
    i + 1 ≤ (fetchLoop attempts i left).attemptsMade := by
  induction left generalizing i with
  | zero => cases h : attempts i <;> simp [fetchLoop, h]
  | succ n ih =>
    cases h : attempts i with
    | resp s =>
      by_cases hs : noRetryStatus s
      · rw [fetchLoop_immediate h hs]
      · rw [(fetchLoop_retry (Or.inl ⟨s, h, Bool.not_eq_true _ ▸ hs⟩) n).2.1]
        have := ih (i + 1)
        omega
    | err e =>
      rw [(fetchLoop_retry (Or.inr ⟨e, h⟩) n).2.1]
      have := ih (i + 1)
      omega

theorem fetchLoop_delays_getD (attempts : Nat → Attempt) (i left : Nat) :
    ∀ j, j < (fetchLoop attempts i left).delays.length →
      (fetchLoop attempts i left).delays.getD j 0 =
        RETRY_DELAY_MS * (i + 1 + j) := by
  induction left generalizing i with
  | zero =>
    intro j hj
    exfalso
    cases h : attempts i <;> simp [fetchLoop, h] at hj
  | succ n ih =>
    intro j hj
    cases h : attempts i with
    | resp s =>
      by_cases hs : noRetryStatus s
      · rw [fetchLoop_immediate h hs] at hj
        simp at hj
      · have hd := (fetchLoop_retry (Or.inl ⟨s, h, Bool.not_eq_true _ ▸ hs⟩) n).2.2
        rw [hd] at hj ⊢
        cases j with
        | zero => simp
        | succ m =>
          simp only [List.length_cons, List.getD_cons_succ] at hj ⊢
          rw [ih (i + 1) m (by omega)]
          congr 1
          omega
    | err e =>
      have hd := (fetchLoop_retry (Or.inr ⟨e, h⟩) n).2.2
      rw [hd] at hj ⊢
      cases j with
      | zero => simp
      | succ m =>
        simp only [List.length_cons, List.getD_cons_succ] at hj ⊢
        rw [ih (i + 1) m (by omega)]
        congr 1
        omega

theorem fetchLoop_all_err {attempts : Nat → Attempt} {es : Nat → Nat}
    (h : ∀ j, attempts j = .err (es j)) (i left : Nat) :
    (fetchLoop attempts i left).result = .error (es (i + left)) ∧
    (fetchLoop attempts i left).attemptsMade = i + left + 1 := by
  induction left generalizing i with
  | zero => simp [fetchLoop, h i]
  | succ n ih =>
    have hr := fetchLoop_retry (Or.inr ⟨es i, h i⟩) n
    have harith : i + 1 + n = i + (n + 1) := by omega
    constructor
    · rw [hr.1, (ih (i + 1)).1, harith]
    · rw [hr.2.1, (ih (i + 1)).2]
      omega

/-! ### Helper lemmas: the orchestrator's main flow -/

theorem etagAdopted_ne_empty {cs : CacheStrategy} {ur : UpstreamResp} {t : String}
    (h : etagAdopted cs ur = some t) : t ≠ "" := by
  unfold etagAdopted at h
  by_cases hu : cs.useETag
  · rw [if_pos hu] at h
    cases he : extractETag (getHeader ur.headers "etag") with
    | none => rw [he] at h; exact absurd h (by simp)
    | some t' =>
      rw [he] at h
      simp only [] at h
      by_cases ht' : t' = ""
      · rw [if_pos ht'] at h; exact absurd h (by simp)
      · rw [if_neg ht'] at h
        injection h with h
        exact h ▸ ht'
  · rw [if_neg hu] at h
    exact absurd h (by simp)

theorem hitResult_fields (el : Nat) (cs : CacheStrategy) (k : String)
    (hr : CachedResp) :
    (hitResult el cs k hr).cacheLookup = true ∧
    (hitResult el cs k hr).cacheHit = true ∧
    (hitResult el cs k hr).cacheWrite = none ∧
    (hitResult el cs k hr).upstreamCalled = false ∧
    (hitResult el cs k hr).lookupKey = some k :=
  ⟨rfl, rfl, rfl, rfl, rfl⟩

theorem missResult_fields (today : String) (el : Nat) (req : WRequest)
    (g : GitHubInfo) (u : UpstreamResp) :
    (missResult today el req g u).cacheLookup =
        (req.method == "GET" && !(isRangeRequest req)) ∧
    (missResult today el req g u).cacheHit = false ∧
    (missResult today el req g u).status = u.status ∧
    (missResult today el req g u).upstreamCalled = true ∧
    (missResult today el req g u).lookupKey =
        some (getOptimalCacheKey today req.url
          ((getHeader req.headers "accept-encoding").getD "") none) ∧
    (missResult today el req g u).cacheWrite =
      (if req.method == "GET" && u.status == 200 && !(isRangeRequest req)
       then some (match etagAdopted (getCacheStrategy g.path) u with
         | some t => getOptimalCacheKey today req.url
             ((getHeader req.headers "accept-encoding").getD "") (some t)
         | none => getOptimalCacheKey today req.url
             ((getHeader req.headers "accept-encoding").getD "") none)
       else none) :=
  ⟨rfl, rfl, rfl, rfl, rfl, rfl⟩

/-- Either the lookup hit (and the hit response is returned), or the
main flow is the upstream outcome passed through the miss assembly. -/
theorem mainFlow_hit_or_miss (today : String) (el : Nat)
    (cM : String → Option CachedResp) (up : Except Nat UpstreamResp)
    (req : WRequest) (g : GitHubInfo) :
    (∃ hitResp,
      (req.method == "GET" && !(isRangeRequest req)) = true ∧
      cM (getOptimalCacheKey today req.url
        ((getHeader req.headers "accept-encoding").getD "") none) = some hitResp ∧
      mainFlow today el cM up req g = .ok (hitResult el (getCacheStrategy g.path)
        (getOptimalCacheKey today req.url
          ((getHeader req.headers "accept-encoding").getD "") none) hitResp)) ∨
    (mainFlow today el cM up req g = up.map (missResult today el req g)) := by
  by_cases hd : (req.method == "GET" && !(isRangeRequest req)) = true
  · cases hc : cM (getOptimalCacheKey today req.url
        ((getHeader req.headers "accept-encoding").getD "") none) with
    | some hitResp =>
      left
      refine ⟨hitResp, hd, rfl, ?_⟩
      unfold mainFlow
      simp [hd, hc]
    | none =>
      right
      unfold mainFlow
      simp [hd, hc]
  · right
    unfold mainFlow
    simp [hd]

theorem mainFlow_ok_cacheLookup {today : String} {el : Nat}
    {cM : String → Option CachedResp} {up : Except Nat UpstreamResp}
    {req : WRequest} {g : GitHubInfo} {r : FetchResult}
    (h : mainFlow today el cM up req g = .ok r) :
    r.cacheLookup = (req.method == "GET" && !(isRangeRequest req)) := by
  rcases mainFlow_hit_or_miss today el cM up req g with ⟨hitResp, hd, hc, he⟩ | he
  · rw [he] at h
    injection h with h
    rw [← h, (hitResult_fields el _ _ hitResp).1, hd]
  · rw [he] at h
    cases up with
    | error e => exact absurd h (by simp [Except.map])
    | ok uresp =>
      simp only [Except.map] at h
      injection h with h
      rw [← h, (missResult_fields today el req g uresp).1]

theorem mainFlow_ok_cacheWrite {today : String} {el : Nat}
    {cM : String → Option CachedResp} {up : Except Nat UpstreamResp}
    {req : WRequest} {g : GitHubInfo} {r : FetchResult} {uresp : UpstreamResp}
    (h : mainFlow today el cM up req g = .ok r) (hup : up = .ok uresp)
    (hhit : r.cacheHit = false) :
    r.cacheWrite =
      (if req.method == "GET" && uresp.status == 200 && !(isRangeRequest req)
       then some (match etagAdopted (getCacheStrategy g.path) uresp with
         | some t => getOptimalCacheKey today req.url
             ((getHeader req.headers "accept-encoding").getD "") (some t)
         | none => getOptimalCacheKey today req.url
             ((getHeader req.headers "accept-encoding").getD "") none)
       else none) ∧
    r.lookupKey = some (getOptimalCacheKey today req.url
      ((getHeader req.headers "accept-encoding").getD "") none) := by
  rcases mainFlow_hit_or_miss today el cM up req g with ⟨hitResp, hd, hc, he⟩ | he
  · rw [he] at h
    injection h with h
    rw [← h] at hhit
    rw [(hitResult_fields el _ _ hitResp).2.1] at hhit
    exact absurd hhit (by simp)
  · rw [he, hup] at h
    simp only [Except.map] at h
    injection h with h
    rw [← h]
    exact ⟨(missResult_fields today el req g uresp).2.2.2.2.2,
      (missResult_fields today el req g uresp).2.2.2.2.1⟩

/-- For an allowed method and a resolvable path, the handler is its
main flow. -/
theorem workerFetch_main {today : String} {el : Nat}
    {cM : String → Option CachedResp} {up : Except Nat UpstreamResp}
    {req : WRequest} {g : GitHubInfo}
    (hg : parseGitHubPath req.url.pathname = some g)
    (hm : req.method = "GET" ∨ req.method = "HEAD") :
    workerFetch today el cM up req = mainFlow today el cM up req g := by
  unfold workerFetch
  rw [hg]
  rcases hm with hm | hm <;> rw [hm] <;> simp

theorem resolveVersion_some (today v : String) :
    resolveVersion today (some v) = if v = "" then today else v := rfl

theorem resolveVersion_none (today : String) :
    resolveVersion today none = today := rfl

/-- Distinct truthy versions give distinct cache keys (same URL, same
accept-encoding, same day). -/
theorem key_version_inj {today : String} {u : WUrl} {e v₁ v₂ : String}
    (h1 : v₁ ≠ "") (h2 : v₂ ≠ "") (hne : v₁ ≠ v₂) :
    getOptimalCacheKey today u e (some v₁) ≠ getOptimalCacheKey today u e (some v₂) := by
  intro heq
  have h := getOptimalCacheKey_version_eq heq
  rw [resolveVersion_some, resolveVersion_some, if_neg h1, if_neg h2] at h
  exact hne h

/-- A truthy version other than the day stamp gives a key different
from the date-versioned key. -/
theorem key_some_ne_none {today : String} {u : WUrl} {e v : String}
    (hv : v ≠ "") (hvt : v ≠ today) :
    getOptimalCacheKey today u e (some v) ≠ getOptimalCacheKey today u e none := by
  intro heq
  have h := getOptimalCacheKey_version_eq heq
  rw [resolveVersion_some, resolveVersion_none, if_neg hv] at h
  exact hvt h

theorem mem_removeAllParam_mem {k w k' : String} {ps : List (String × String)}
    (h : (k, w) ∈ removeAllParam k' ps) : (k, w) ∈ ps := by
  induction ps with
  | nil => exact absurd h (by simp [removeAllParam])
  | cons p t ih =>
    obtain ⟨a, b⟩ := p
    rw [removeAllParam_cons] at h
    by_cases hak : a = k'
    · rw [if_pos hak] at h
      exact List.mem_cons.mpr (Or.inr (ih h))
    · rw [if_neg hak] at h
      rcases List.mem_cons.mp h with heq | hmem
      · exact List.mem_cons.mpr (Or.inl heq)
      · exact List.mem_cons.mpr (Or.inr (ih hmem))

theorem mem_setParam_other {k w k' v : String} {ps : List (String × String)}
    (hkk : k ≠ k') (h : (k, w) ∈ setParam ps k' v) : (k, w) ∈ ps := by
  induction ps with
  | nil =>
    rw [setParam_nil] at h
    rcases List.mem_cons.mp h with heq | hmem
    · exact absurd (congrArg Prod.fst heq) hkk
    · exact absurd hmem (by simp)
  | cons p t ih =>
    obtain ⟨a, b⟩ := p
    rw [setParam_cons] at h
    by_cases hak : a = k'
    · rw [if_pos hak] at h
      rcases List.mem_cons.mp h with heq | hmem
      · exact absurd (congrArg Prod.fst heq) hkk
      · exact List.mem_cons.mpr (Or.inr (mem_removeAllParam_mem hmem))
    · rw [if_neg hak] at h
      rcases List.mem_cons.mp h with heq | hmem
      · exact List.mem_cons.mpr (Or.inl heq)
      · exact List.mem_cons.mpr (Or.inr (ih hmem))

/-- The parameter list of the built cache URL is the `__v`-updated list,
possibly further updated at `__enc`. -/
theorem cacheUrl_params_cases (today : String) (u : WUrl) (e : String)
    (v : Option String) :
    (getOptimalCacheUrl today u e v).params =
        setParam u.params "__v" (resolveVersion today v) ∨
    ∃ t, (getOptimalCacheUrl today u e v).params =
        setParam (setParam u.params "__v" (resolveVersion today v)) "__enc" t := by
  unfold getOptimalCacheUrl
  by_cases he : e ≠ ""
  · by_cases hbr : containsStr e "br"
    · exact Or.inr ⟨"br", by simp [he, hbr]⟩
    · by_cases hgz : containsStr e "gzip"
      · exact Or.inr ⟨"gzip", by simp [he, hbr, hgz]⟩
      · exact Or.inl (by simp [he, hbr, hgz])
  · exact Or.inl (by simp [he])

/-! ### Claim theorems -/

/-- Claim C6 (confirmed): `getCacheStrategy` is a pure total function of
the path, its rules fire in priority order with first match winning
(dynamic, then versioned, then the default fallback), and it maps the
three specified example paths to the versioned, dynamic and default
policies with the specified TTL and ETag fields. -/
theorem getCacheStrategy_priority_and_examples :
    (∀ p : String, isDynamicPath p = true → getCacheStrategy p = dynamicStrategy) ∧
    (∀ p : String, isDynamicPath p = false → isVersionedPath p = true →
      getCacheStrategy p = versionedStrategy) ∧
    (∀ p : String, isDynamicPath p = false → isVersionedPath p = false →
      getCacheStrategy p = defaultStrategy) ∧
    getCacheStrategy "/pkg/releases/download/v1.2.3/file.tar.gz" = versionedStrategy ∧
    getCacheStrategy "/pkg/raw/main/file" = dynamicStrategy ∧
    getCacheStrategy "/pkg/blob/x" = defaultStrategy ∧
    versionedStrategy = { edgeTTL := 2592000, browserTTL := 86400,
                          useETag := false, description := "versioned" } ∧
    dynamicStrategy = { edgeTTL := 3600, browserTTL := 300,
                        useETag := true, description := "dynamic" } ∧
    defaultStrategy = { edgeTTL := 86400, browserTTL := 3600,
                        useETag := true, description := "default" } := by
  refine ⟨?_, ?_, ?_, by decide, by decide, by decide, by decide, by decide, by decide⟩
  · intro p h
    simp [getCacheStrategy, h]
  · intro p h1 h2
    simp [getCacheStrategy, h1, h2]
  · intro p h1 h2
    simp [getCacheStrategy, h1, h2]

theorem getCacheStrategy_priority_witness :
    isDynamicPath "/x/latest/v1.2/y" = true ∧
    getCacheStrategy "/x/latest/v1.2/y" = dynamicStrategy ∧
    isDynamicPath "/x/v1.2/y" = false ∧ isVersionedPath "/x/v1.2/y" = true ∧
    getCacheStrategy "/x/v1.2/y" = versionedStrategy ∧
    isDynamicPath "/x/plain" = false ∧ isVersionedPath "/x/plain" = false ∧
    getCacheStrategy "/x/plain" = defaultStrategy :=
  ⟨by decide,
   getCacheStrategy_priority_and_examples.1 "/x/latest/v1.2/y" (by decide),
   by decide, by decide,
   getCacheStrategy_priority_and_examples.2.1 "/x/v1.2/y" (by decide) (by decide),
   by decide, by decide,
   getCacheStrategy_priority_and_examples.2.2.1 "/x/plain" (by decide) (by decide)⟩

/-- Claim C8 (confirmed): `extractETag` strips a weak-validator prefix
and the surrounding quotes, truncates to 32 characters (a 40-character
tag is cut to its first 32), and maps an absent header to null. -/
theorem extractETag_normalizes :
    extractETag (some "W/\"abc123\"") = some "abc123" ∧
    extractETag (some "\"abc123def456abc123def456abc123def456abcd\"") =
      some "abc123def456abc123def456abc123de" ∧
    extractETag none = none ∧
    (∀ e s : String, extractETag (some e) = some s → s.length ≤ 32) := by
  refine ⟨by decide, by decide, rfl, ?_⟩
  intro e s h
  have heq : extractETag (some e) =
      if e = "" then none
      else some (String.mk ((stripETagChars e.data).take 32)) := rfl
  rw [heq] at h
  by_cases he : e = ""
  · rw [if_pos he] at h
    exact absurd h (by simp)
  · rw [if_neg he] at h
    injection h with h
    rw [← h]
    show ((stripETagChars e.data).take 32).length ≤ 32
    rw [List.length_take]
    omega

theorem extractETag_normalizes_witness :
    extractETag (some "\"abc\"") = some "abc" ∧ ("abc" : String).length ≤ 32 :=
  ⟨by decide, extractETag_normalizes.2.2.2 "\"abc\"" "abc" (by decide)⟩

/-- Claim C7 (confirmed): `parseGitHubPath` adopts a recognized leading
segment as the origin host with the remaining segments re-joined behind
a leading `/`; an unrecognized first segment falls back to `github.com`
with the whole input path; zero non-empty segments fail, which the
orchestrator maps to a 400 plain-text response; and every successful
parse satisfies `fullUrl = "https://" ++ host ++ path`. -/
theorem parseGitHubPath_resolves :
    (∀ pathname first : String, ∀ rest : List String,
      pathParts pathname = first :: rest →
      GITHUB_HOSTS.contains first = true →
      parseGitHubPath pathname =
        some { host := first,
               path := String.mk ('/' :: joinSep '/' (rest.map String.data)),
               fullUrl := "https://" ++ first ++
                 String.mk ('/' :: joinSep '/' (rest.map String.data)) }) ∧
    (∀ pathname first : String, ∀ rest : List String,
      pathParts pathname = first :: rest →
      GITHUB_HOSTS.contains first = false →
      parseGitHubPath pathname =
        some { host := "github.com", path := pathname,
               fullUrl := "https://github.com" ++ pathname }) ∧
    (∀ pathname : String, pathParts pathname = [] →
      parseGitHubPath pathname = none) ∧
    (∀ (today : String) (el : Nat) (cM : String → Option CachedResp)
        (up : Except Nat UpstreamResp) (req : WRequest),
      pathParts req.url.pathname = [] →
      workerFetch today el cM up req =
        .ok { status := 400, body := some invalidPathBody,
              headers := [("Content-Type", "text/plain")],
              upstreamCalled := false, cacheLookup := false, cacheHit := false,
              lookupKey := none, cacheWrite := none }) ∧
    (∀ pathname : String, ∀ g : GitHubInfo, parseGitHubPath pathname = some g →
      g.fullUrl = "https://" ++ g.host ++ g.path) := by
  refine ⟨?_, ?_, ?_, ?_, ?_⟩
  · intro pathname first rest hp hh
    unfold parseGitHubPath
    rw [hp]
    simp only []
    rw [if_pos hh]
  · intro pathname first rest hp hh
    unfold parseGitHubPath
    rw [hp]
    simp only []
    rw [if_neg (fun hx : GITHUB_HOSTS.contains first = true => by
      rw [hh] at hx
      exact Bool.noConfusion hx)]
  · intro pathname hp
    unfold parseGitHubPath
    rw [hp]
  · intro today el cM up req hp
    unfold workerFetch
    have : parseGitHubPath req.url.pathname = none := by
      unfold parseGitHubPath
      rw [hp]
    rw [this]
  · intro pathname g h
    unfold parseGitHubPath at h
    cases hp : pathParts pathname with
    | nil => rw [hp] at h; exact absurd h (by simp)
    | cons first rest =>
      rw [hp] at h
      simp only [] at h
      by_cases hh : GITHUB_HOSTS.contains first
      · rw [if_pos hh] at h
        injection h with h
        rw [← h]
      · rw [if_neg hh] at h
        injection h with h
        rw [← h]
        rfl

theorem parseGitHubPath_resolves_witness :
    pathParts "/raw.githubusercontent.com/user/repo/main/f.txt" =
      ["raw.githubusercontent.com", "user", "repo", "main", "f.txt"] ∧
    GITHUB_HOSTS.contains "raw.githubusercontent.com" = true ∧
    parseGitHubPath "/raw.githubusercontent.com/user/repo/main/f.txt" =
      some { host := "raw.githubusercontent.com", path := "/user/repo/main/f.txt",
             fullUrl := "https://raw.githubusercontent.com/user/repo/main/f.txt" } ∧
    pathParts "/user/repo/file" = ["user", "repo", "file"] ∧
    GITHUB_HOSTS.contains "user" = false ∧
    parseGitHubPath "/user/repo/file" =
      some { host := "github.com", path := "/user/repo/file",
             fullUrl := "https://github.com/user/repo/file" } ∧
    pathParts "/" = [] ∧
    parseGitHubPath "/" = none ∧
    workerFetch "20251011" 0 (fun _ => none) (.ok ⟨200, "OK", [], some "B"⟩)
      { method := "GET",
        url := { origin := "https://p.example", pathname := "/", params := [] },
        headers := [] } =
      .ok { status := 400, body := some invalidPathBody,
            headers := [("Content-Type", "text/plain")],
            upstreamCalled := false, cacheLookup := false, cacheHit := false,
            lookupKey := none, cacheWrite := none } := by
  refine ⟨by decide, by decide, ?hosted, by decide, by decide, ?fallback,
    by decide, ?invalid, ?badreq⟩
  case hosted =>
    have h := parseGitHubPath_resolves.1
      "/raw.githubusercontent.com/user/repo/main/f.txt" "raw.githubusercontent.com"
      ["user", "repo", "main", "f.txt"] (by decide) (by decide)
    rw [h]
    decide
  case fallback =>
    exact parseGitHubPath_resolves.2.1 "/user/repo/file" "user"
      ["repo", "file"] (by decide) (by decide)
  case invalid =>
    exact parseGitHubPath_resolves.2.2.1 "/" (by decide)
  case badreq =>
    exact parseGitHubPath_resolves.2.2.2.1 "20251011" 0 (fun _ => none)
      (.ok ⟨200, "OK", [], some "B"⟩)
      { method := "GET",
        url := { origin := "https://p.example", pathname := "/", params := [] },
        headers := [] } (by decide)

/-- Claim C5 (confirmed): `fetchWithRetry` makes at most `retries + 1`
attempts, the delay before the 1-indexed `i`-th retry is
`RETRY_DELAY_MS * i` (linear backoff), the `[500, 500, 200]` run with
`retries = 2` returns the 200 after exactly two delays, an all-500 run
returns the final 500 response without raising, a first-attempt 404
returns immediately with zero retries, and an all-error run raises the
last error after `retries + 1` attempts. -/
theorem fetchWithRetry_policy :
    (∀ (attempts : Nat → Attempt) (retries : Nat),
      (fetchWithRetry attempts retries).attemptsMade ≤ retries + 1) ∧
    (∀ (attempts : Nat → Attempt) (retries j : Nat),
      j < (fetchWithRetry attempts retries).delays.length →
      (fetchWithRetry attempts retries).delays.getD j 0 =
        RETRY_DELAY_MS * (j + 1)) ∧
    fetchWithRetry
      (fun i => if i = 0 then .resp 500 else if i = 1 then .resp 500 else .resp 200) 2 =
      { result := .ok 200, attemptsMade := 3,
        delays := [RETRY_DELAY_MS * 1, RETRY_DELAY_MS * 2] } ∧
    fetchWithRetry (fun _ => .resp 500) 2 =
      { result := .ok 500, attemptsMade := 3,
        delays := [RETRY_DELAY_MS * 1, RETRY_DELAY_MS * 2] } ∧
    fetchWithRetry (fun _ => .resp 404) 2 =
      { result := .ok 404, attemptsMade := 1, delays := [] } ∧
    (∀ (attempts : Nat → Attempt) (es : Nat → Nat) (retries : Nat),
      (∀ j, attempts j = .err (es j)) →
      (fetchWithRetry attempts retries).result = .error (es retries) ∧
      (fetchWithRetry attempts retries).attemptsMade = retries + 1) := by
  refine ⟨?_, ?_, by decide, by decide, by decide, ?_⟩
  · intro attempts retries
    have := fetchLoop_attempts_le attempts 0 retries
    unfold fetchWithRetry
    omega
  · intro attempts retries j hj
    have := fetchLoop_delays_getD attempts 0 retries j hj
    unfold fetchWithRetry at *
    rw [this]
    congr 1
    omega
  · intro attempts es retries hall
    have := fetchLoop_all_err hall 0 retries
    unfold fetchWithRetry
    rw [Nat.zero_add] at this
    exact this

theorem fetchWithRetry_policy_witness :
    (0 < (fetchWithRetry (fun _ => Attempt.resp 500) 2).delays.length ∧
      (fetchWithRetry (fun _ => Attempt.resp 500) 2).delays.getD 0 0 =
        RETRY_DELAY_MS * 1) ∧
    ((fun _ => Attempt.err 7) 0 = Attempt.err 7 ∧
      (fetchWithRetry (fun _ => Attempt.err 7) 2).result = .error 7 ∧
      (fetchWithRetry (fun _ => Attempt.err 7) 2).attemptsMade = 3) :=
  ⟨⟨by decide,
    fetchWithRetry_policy.2.1 (fun _ => Attempt.resp 500) 2 0 (by decide)⟩,
   ⟨rfl,
    (fetchWithRetry_policy.2.2.2.2.2 (fun _ => Attempt.err 7) (fun _ => 7) 2
      (fun _ => rfl)).1,
    (fetchWithRetry_policy.2.2.2.2.2 (fun _ => Attempt.err 7) (fun _ => 7) 2
      (fun _ => rfl)).2⟩⟩

/-- Claim C2 is refuted at a concrete input: the first attempt returns
status 301 (a 2xx–3xx status by the claim's range), yet the run does
not return that response immediately — it sleeps one retry delay, makes
a second attempt and returns the second response instead. -/
theorem fetchWithRetry_3xx_retried :
    (300 ≤ 301 ∧ 301 < 400) ∧
    (fun i => if i = 0 then Attempt.resp 301 else Attempt.resp 200) 0 =
      Attempt.resp 301 ∧
    fetchWithRetry (fun i => if i = 0 then Attempt.resp 301 else Attempt.resp 200) 1 =
      { result := .ok 200, attemptsMade := 2, delays := [RETRY_DELAY_MS * 1] } := by
  refine ⟨by decide, rfl, by decide⟩

/-- Claim C2, amended (the code returns immediately exactly for 2xx —
`response.ok` — and 4xx; a 3xx response is treated as retryable like a
5xx): a 2xx first response is returned immediately with no further
attempt and no delay for every retry budget, the same holds at every
attempt index for 2xx and 4xx, and a 3xx response with budget left
leads to one more delay and a further attempt. -/
theorem fetchWithRetry_immediate_2xx :
    (∀ (attempts : Nat → Attempt) (retries s : Nat),
      attempts 0 = .resp s → 200 ≤ s → s < 300 →
      fetchWithRetry attempts retries =
        { result := .ok s, attemptsMade := 1, delays := [] }) ∧
    (∀ (attempts : Nat → Attempt) (i s left : Nat),
      attempts i = .resp s →
      ((200 ≤ s ∧ s < 300) ∨ (400 ≤ s ∧ s < 500)) →
      fetchLoop attempts i left =
        { result := .ok s, attemptsMade := i + 1, delays := [] }) ∧
    (∀ (attempts : Nat → Attempt) (i s left : Nat),
      attempts i = .resp s → 300 ≤ s → s < 400 →
      (fetchLoop attempts i (left + 1)).result =
          (fetchLoop attempts (i + 1) left).result ∧
      (fetchLoop attempts i (left + 1)).delays =
        RETRY_DELAY_MS * (i + 1) :: (fetchLoop attempts (i + 1) left).delays) := by
  have hclass : ∀ s : Nat, ((200 ≤ s ∧ s < 300) ∨ (400 ≤ s ∧ s < 500)) →
      noRetryStatus s = true := by
    intro s hs
    unfold noRetryStatus respOk
    rcases hs with ⟨h1, h2⟩ | ⟨h1, h2⟩ <;> simp <;> omega
  have hclass3 : ∀ s : Nat, 300 ≤ s → s < 400 → noRetryStatus s = false := by
    intro s h1 h2
    unfold noRetryStatus respOk
    simp
    omega
  refine ⟨?_, ?_, ?_⟩
  · intro attempts retries s ha h1 h2
    unfold fetchWithRetry
    rw [fetchLoop_immediate ha (hclass s (Or.inl ⟨h1, h2⟩)) retries]
  · intro attempts i s left ha hs
    rw [fetchLoop_immediate ha (hclass s hs) left]
  · intro attempts i s left ha h1 h2
    have hr := fetchLoop_retry (Or.inl ⟨s, ha, hclass3 s h1 h2⟩) left
    exact ⟨hr.1, hr.2.2⟩

theorem fetchWithRetry_immediate_2xx_witness :
    ((fun _ => Attempt.resp 204) 0 = Attempt.resp 204 ∧ 200 ≤ 204 ∧ 204 < 300 ∧
      fetchWithRetry (fun _ => Attempt.resp 204) 2 =
        { result := .ok 204, attemptsMade := 1, delays := [] }) ∧
    ((fun _ => Attempt.resp 301) 0 = Attempt.resp 301 ∧ 300 ≤ 301 ∧ 301 < 400 ∧
      (fetchLoop (fun _ => Attempt.resp 301) 0 1).delays =
        RETRY_DELAY_MS * 1 :: (fetchLoop (fun _ => Attempt.resp 301) 1 0).delays) :=
  ⟨⟨rfl, by decide, by decide,
    fetchWithRetry_immediate_2xx.1 (fun _ => Attempt.resp 204) 2 204 rfl
      (by decide) (by decide)⟩,
   ⟨rfl, by decide, by decide,
    (fetchWithRetry_immediate_2xx.2.2 (fun _ => Attempt.resp 301) 0 301 0 rfl
      (by decide) (by decide)).2⟩⟩

/-- Claim C4 is refuted at a concrete input: the Accept-Encoding
component changes from "br" to "gzip, br" while URL and version are
held fixed, yet the produced cache-key strings are byte-identical —
both encodings are collapsed to the `__enc=br` tag. -/
theorem getOptimalCacheKey_encoding_collision :
    ("br" : String) ≠ "gzip, br" ∧
    getOptimalCacheKey "20251011"
      { origin := "https://proxy.example", pathname := "/user/repo", params := [] }
      "br" (some "x") =
    getOptimalCacheKey "20251011"
      { origin := "https://proxy.example", pathname := "/user/repo", params := [] }
      "gzip, br" (some "x") :=
  ⟨by decide, by decide⟩

/-- Claim C4, amended: with the hidden clock input (the current UTC day
stamp) held fixed, `getOptimalCacheKey` is deterministic in the triple
(url, acceptEncoding, version) — identical triples give byte-identical
key strings — and changing the version component to a different truthy
version changes the key; but changing the url or the acceptEncoding
alone need not change the key: Accept-Encoding values are collapsed to
their derived `__enc` tag, and a pre-existing `__v` parameter in the
url is overwritten. -/
theorem getOptimalCacheKey_determinism :
    (∀ (today : String) (u₁ u₂ : WUrl) (e₁ e₂ : String) (v₁ v₂ : Option String),
      u₁ = u₂ → e₁ = e₂ → v₁ = v₂ →
      getOptimalCacheKey today u₁ e₁ v₁ = getOptimalCacheKey today u₂ e₂ v₂) ∧
    (∀ (today : String) (u : WUrl) (e v₁ v₂ : String),
      v₁ ≠ "" → v₂ ≠ "" → v₁ ≠ v₂ →
      getOptimalCacheKey today u e (some v₁) ≠ getOptimalCacheKey today u e (some v₂)) ∧
    getOptimalCacheKey "20251011"
      { origin := "https://proxy.example", pathname := "/user/repo", params := [] }
      "br, gzip" (some "x") =
    getOptimalCacheKey "20251011"
      { origin := "https://proxy.example", pathname := "/user/repo", params := [] }
      "br" (some "x") ∧
    getOptimalCacheKey "20251011"
      { origin := "https://proxy.example", pathname := "/user/repo",
        params := [("__v", "old")] }
      "" (some "x") =
    getOptimalCacheKey "20251011"
      { origin := "https://proxy.example", pathname := "/user/repo", params := [] }
      "" (some "x") := by
  refine ⟨?_, ?_, by decide, by decide⟩
  · intro today u₁ u₂ e₁ e₂ v₁ v₂ hu he hv
    rw [hu, he, hv]
  · intro today u e v₁ v₂ h1 h2 hne
    exact key_version_inj h1 h2 hne

theorem getOptimalCacheKey_determinism_witness :
    ("a" : String) ≠ "" ∧ ("b" : String) ≠ "" ∧ ("a" : String) ≠ "b" ∧
    getOptimalCacheKey "20251011"
      { origin := "https://proxy.example", pathname := "/user/repo", params := [] }
      "" (some "a") ≠
    getOptimalCacheKey "20251011"
      { origin := "https://proxy.example", pathname := "/user/repo", params := [] }
      "" (some "b") :=
  ⟨by decide, by decide, by decide,
   getOptimalCacheKey_determinism.2.1 "20251011"
     { origin := "https://proxy.example", pathname := "/user/repo", params := [] }
     "" "a" "b" (by decide) (by decide) (by decide)⟩

/-- Claim C3 is refuted at a concrete input: the version string `""`
differs from the day stamp `"20251011"`, yet — because the source
computes `version || getCacheVersion()` and the empty string is falsy —
the key built with version `""` equals the key built with no version. -/
theorem getOptimalCacheKey_empty_version_collision :
    ("" : String) ≠ "20251011" ∧
    getOptimalCacheKey "20251011"
      { origin := "https://proxy.example", pathname := "/user/repo", params := [] }
      "" (some "") =
    getOptimalCacheKey "20251011"
      { origin := "https://proxy.example", pathname := "/user/repo", params := [] }
      "" none :=
  ⟨by decide, by decide⟩

/-- Claim C3, amended (the quantified version must be non-empty, since
the source treats an empty version string as absent): for every
non-empty version `v` differing from the day stamp,
`getOptimalCacheKey(u, e, v)` differs from the same-day
`getOptimalCacheKey(u, e, null)`; consequently, when the handler adopts
an upstream ETag (always non-empty) differing from the day stamp, the
key under which the asynchronous cache write is scheduled differs from
the lookup key, so a worker-cache lookup with the date-derived key can
never match an entry stored under the ETag-derived key. -/
theorem etag_key_never_matches_date_key :
    (∀ (today : String) (u : WUrl) (e v : String), v ≠ "" → v ≠ today →
      getOptimalCacheKey today u e (some v) ≠ getOptimalCacheKey today u e none) ∧
    (∀ (today : String) (el : Nat) (cM : String → Option CachedResp)
        (up : Except Nat UpstreamResp) (req : WRequest) (g : GitHubInfo)
        (r : FetchResult) (uresp : UpstreamResp) (t k lk : String),
      parseGitHubPath req.url.pathname = some g →
      up = .ok uresp →
      etagAdopted (getCacheStrategy g.path) uresp = some t →
      t ≠ today →
      workerFetch today el cM up req = .ok r →
      r.cacheWrite = some k →
      r.lookupKey = some lk →
      k ≠ lk ∧ ∀ resp : CachedResp, cacheWithEntry k resp lk = none) := by
  constructor
  · intro today u e v hv hvt
    exact key_some_ne_none hv hvt
  · intro today el cM up req g r uresp t k lk hg hup hetag ht h hw hlk
    have hstep : k ≠ lk := by
      unfold workerFetch at h
      rw [hg] at h
      simp only [] at h
      split_ifs at h with hopt hmeth
      · injection h with h
        rw [← h] at hw
        exact absurd hw (by simp)
      · injection h with h
        rw [← h] at hw
        exact absurd hw (by simp)
      · rcases mainFlow_hit_or_miss today el cM up req g with
          ⟨hitResp, hd, hc, he⟩ | he
        · rw [he] at h
          injection h with h
          rw [← h] at hw
          rw [(hitResult_fields el _ _ hitResp).2.2.1] at hw
          exact absurd hw (by simp)
        · rw [he, hup] at h
          simp only [Except.map] at h
          injection h with h
          rw [← h] at hw hlk
          rw [(missResult_fields today el req g uresp).2.2.2.2.1] at hlk
          rw [(missResult_fields today el req g uresp).2.2.2.2.2] at hw
          by_cases hcond : (req.method == "GET" && uresp.status == 200 &&
              !(isRangeRequest req)) = true
          · rw [if_pos hcond] at hw
            rw [hetag] at hw
            simp only [] at hw
            injection hw with hw
            injection hlk with hlk
            rw [← hw, ← hlk]
            exact key_some_ne_none (etagAdopted_ne_empty hetag) ht
          · rw [if_neg hcond] at hw
            exact absurd hw (by simp)
    refine ⟨hstep, ?_⟩
    intro resp
    unfold cacheWithEntry
    rw [if_neg (fun hx : lk = k => hstep hx.symm)]

theorem etag_key_never_matches_date_key_witness :
    ("abc123" : String) ≠ "" ∧ ("abc123" : String) ≠ "20251011" ∧
    getOptimalCacheKey "20251011"
      { origin := "https://proxy.example", pathname := "/user/repo", params := [] }
      "" (some "abc123") ≠
    getOptimalCacheKey "20251011"
      { origin := "https://proxy.example", pathname := "/user/repo", params := [] }
      "" none :=
  ⟨by decide, by decide,
   etag_key_never_matches_date_key.1 "20251011"
     { origin := "https://proxy.example", pathname := "/user/repo", params := [] }
     "" "abc123" (by decide) (by decide)⟩

/-- Claim C10 (confirmed): the key builder always sets the reserved
`__v` parameter — every `__v` entry of the produced key carries the
resolved version, overwriting any pre-existing `__v` — but it never
deletes a pre-existing `__enc` parameter: when the Accept-Encoding
value contains neither `br` nor `gzip`, a client-supplied `__enc` query
parameter survives unchanged into the key, so identical requests
differing only in that `__enc` value receive different cache keys. -/
theorem cacheKey_v_overwritten_enc_preserved :
    (∀ (today : String) (u : WUrl) (e : String) (v : Option String),
      getParam (getOptimalCacheUrl today u e v).params "__v" =
        some (resolveVersion today v) ∧
      ∀ w, ("__v", w) ∈ (getOptimalCacheUrl today u e v).params →
        w = resolveVersion today v) ∧
    (∀ (today e : String), containsStr e "br" = false →
      containsStr e "gzip" = false →
      ∀ (origin pathname : String) (pre post : List (String × String))
        (w : String) (v : Option String),
      "__enc" ∉ pre.map Prod.fst →
      getParam (getOptimalCacheUrl today
        { origin := origin, pathname := pathname,
          params := pre ++ ("__enc", w) :: post } e v).params "__enc" = some w) ∧
    (∀ (today e : String), containsStr e "br" = false →
      containsStr e "gzip" = false →
      ∀ (origin pathname : String) (pre post : List (String × String))
        (w₁ w₂ : String) (v : Option String),
      w₁ ≠ w₂ → "__enc" ∉ pre.map Prod.fst →
      getOptimalCacheKey today
        { origin := origin, pathname := pathname,
          params := pre ++ ("__enc", w₁) :: post } e v ≠
      getOptimalCacheKey today
        { origin := origin, pathname := pathname,
          params := pre ++ ("__enc", w₂) :: post } e v) := by
  refine ⟨?_, ?_, ?_⟩
  · intro today u e v
    refine ⟨getParam_v_of_cacheUrl today u e v, ?_⟩
    intro w hmem
    rcases cacheUrl_params_cases today u e v with hcase | ⟨t, hcase⟩
    · rw [hcase] at hmem
      exact mem_setParam_value hmem
    · rw [hcase] at hmem
      exact mem_setParam_value (mem_setParam_other (by decide) hmem)
  · intro today e hbr hgz origin pathname pre post w v hpre
    rw [getParam_enc_of_cacheUrl hbr hgz]
    exact getParam_append_first hpre
  · intro today e hbr hgz origin pathname pre post w₁ w₂ v hw hpre heq
    have hurl := @getOptimalCacheKey_inj_core today e
      { origin := origin, pathname := pathname,
        params := pre ++ ("__enc", w₁) :: post }
      { origin := origin, pathname := pathname,
        params := pre ++ ("__enc", w₂) :: post }
      v v rfl rfl (by simp [List.map_append]) heq
    have h1 := getParam_enc_of_cacheUrl hbr hgz today
      { origin := origin, pathname := pathname,
        params := pre ++ ("__enc", w₁) :: post } v
    have h2 := getParam_enc_of_cacheUrl hbr hgz today
      { origin := origin, pathname := pathname,
        params := pre ++ ("__enc", w₂) :: post } v
    rw [hurl] at h1
    rw [h1] at h2
    rw [getParam_append_first hpre, getParam_append_first hpre] at h2
    injection h2 with h2
    exact hw h2

theorem cacheKey_v_overwritten_enc_preserved_witness :
    containsStr "identity" "br" = false ∧
    containsStr "identity" "gzip" = false ∧
    ("__enc" : String) ∉ ([] : List (String × String)).map Prod.fst ∧
    ("cafe" : String) ≠ "dead" ∧
    getParam (getOptimalCacheUrl "20251011"
      { origin := "https://proxy.example", pathname := "/user/repo",
        params := [("__enc", "cafe")] } "identity" none).params "__enc" =
      some "cafe" ∧
    getOptimalCacheKey "20251011"
      { origin := "https://proxy.example", pathname := "/user/repo",
        params := [("__enc", "cafe")] } "identity" none ≠
    getOptimalCacheKey "20251011"
      { origin := "https://proxy.example", pathname := "/user/repo",
        params := [("__enc", "dead")] } "identity" none :=
  ⟨by decide, by decide, by decide, by decide,
   cacheKey_v_overwritten_enc_preserved.2.1 "20251011" "identity"
     (by decide) (by decide) "https://proxy.example" "/user/repo" [] []
     "cafe" none (by decide),
   cacheKey_v_overwritten_enc_preserved.2.2 "20251011" "identity"
     (by decide) (by decide) "https://proxy.example" "/user/repo" [] []
     "cafe" "dead" none (by decide) (by decide)⟩

/-- Claim C1 is refuted at a concrete input: an `OPTIONS` request to
the bare path `/` receives a 400 invalid-path response, not the claimed
204 — the handler resolves the path before looking at the method. -/
theorem options_bare_root_gets_400 :
    workerFetch "20251011" 0 (fun _ => none) (.ok ⟨200, "OK", [], some "B"⟩)
      { method := "OPTIONS",
        url := { origin := "https://p.example", pathname := "/", params := [] },
        headers := [] } =
      .ok { status := 400, body := some invalidPathBody,
            headers := [("Content-Type", "text/plain")],
            upstreamCalled := false, cacheLookup := false, cacheHit := false,
            lookupKey := none, cacheWrite := none } ∧
    (400 : Nat) ≠ 204 :=
  ⟨by decide, by decide⟩

/-- Claim C1, amended: path resolution precedes method validation.  For
every request whose path has at least one non-empty segment, `OPTIONS`
yields 204 with the CORS preflight headers, an empty body and no
upstream call; a method that is neither GET, HEAD nor OPTIONS yields
405.  A segment-less path (including the bare `/`) yields 400 for every
method, `OPTIONS` included. -/
theorem method_validation_after_path :
    (∀ (today : String) (el : Nat) (cM : String → Option CachedResp)
        (up : Except Nat UpstreamResp) (req : WRequest) (g : GitHubInfo),
      parseGitHubPath req.url.pathname = some g →
      req.method = "OPTIONS" →
      workerFetch today el cM up req =
        .ok { status := 204, body := none, headers := corsPreflightHeaders,
              upstreamCalled := false, cacheLookup := false, cacheHit := false,
              lookupKey := none, cacheWrite := none }) ∧
    (∀ (today : String) (el : Nat) (cM : String → Option CachedResp)
        (up : Except Nat UpstreamResp) (req : WRequest) (g : GitHubInfo),
      parseGitHubPath req.url.pathname = some g →
      req.method ≠ "OPTIONS" → req.method ≠ "GET" → req.method ≠ "HEAD" →
      workerFetch today el cM up req =
        .ok { status := 405, body := some "Method Not Allowed", headers := [],
              upstreamCalled := false, cacheLookup := false, cacheHit := false,
              lookupKey := none, cacheWrite := none }) ∧
    (∀ (today : String) (el : Nat) (cM : String → Option CachedResp)
        (up : Except Nat UpstreamResp) (req : WRequest),
      parseGitHubPath req.url.pathname = none →
      workerFetch today el cM up req =
        .ok { status := 400, body := some invalidPathBody,
              headers := [("Content-Type", "text/plain")],
              upstreamCalled := false, cacheLookup := false, cacheHit := false,
              lookupKey := none, cacheWrite := none }) := by
  refine ⟨?_, ?_, ?_⟩
  · intro today el cM up req g hg hm
    unfold workerFetch
    rw [hg]
    simp only []
    rw [if_pos hm]
  · intro today el cM up req g hg hm1 hm2 hm3
    unfold workerFetch
    rw [hg]
    simp only []
    rw [if_neg hm1, if_pos ⟨hm2, hm3⟩]
  · intro today el cM up req hg
    unfold workerFetch
    rw [hg]

theorem method_validation_after_path_witness :
    parseGitHubPath "/user/repo" =
      some { host := "github.com", path := "/user/repo",
             fullUrl := "https://github.com/user/repo" } ∧
    workerFetch "20251011" 0 (fun _ => none) (.ok ⟨200, "OK", [], some "B"⟩)
      { method := "OPTIONS",
        url := { origin := "https://p.example", pathname := "/user/repo",
                 params := [] },
        headers := [] } =
      .ok { status := 204, body := none, headers := corsPreflightHeaders,
            upstreamCalled := false, cacheLookup := false, cacheHit := false,
            lookupKey := none, cacheWrite := none } ∧
    workerFetch "20251011" 0 (fun _ => none) (.ok ⟨200, "OK", [], some "B"⟩)
      { method := "POST",
        url := { origin := "https://p.example", pathname := "/user/repo",
                 params := [] },
        headers := [] } =
      .ok { status := 405, body := some "Method Not Allowed", headers := [],
            upstreamCalled := false, cacheLookup := false, cacheHit := false,
            lookupKey := none, cacheWrite := none } :=
  ⟨by decide,
   method_validation_after_path.1 "20251011" 0 (fun _ => none)
     (.ok ⟨200, "OK", [], some "B"⟩)
     { method := "OPTIONS",
       url := { origin := "https://p.example", pathname := "/user/repo",
                params := [] },
       headers := [] }
     { host := "github.com", path := "/user/repo",
       fullUrl := "https://github.com/user/repo" } (by decide) rfl,
   method_validation_after_path.2.1 "20251011" 0 (fun _ => none)
     (.ok ⟨200, "OK", [], some "B"⟩)
     { method := "POST",
       url := { origin := "https://p.example", pathname := "/user/repo",
                params := [] },
       headers := [] }
     { host := "github.com", path := "/user/repo",
       fullUrl := "https://github.com/user/repo" } (by decide)
     (by decide) (by decide) (by decide)⟩

/-- Claim C9 is refuted at a concrete input: a GET request carrying a
`Range` header whose value is the empty string is not treated as a
Range request (`!!request.headers.get("range")` is false for `""`), so
both the cache lookup and the cache write happen even though the
request carries a Range header. -/
theorem empty_range_header_still_cached :
    getHeader [("range", "")] "range" = some "" ∧
    (workerFetch "20251011" 0 (fun _ => none) (.ok ⟨200, "OK", [], some "B"⟩)
      { method := "GET",
        url := { origin := "https://p.example", pathname := "/user/repo",
                 params := [] },
        headers := [("range", "")] }).map
      (fun r => (r.cacheLookup, r.cacheWrite.isSome)) = .ok (true, true) :=
  ⟨by decide, by decide⟩

/-- Claim C9, amended (a "Range request" is one whose `Range` header is
present with a non-empty value, matching the source's truthiness test):
past validation, the edge-cache lookup is attempted exactly when the
method is GET and the request is not a Range request, and the
asynchronous cache write is scheduled exactly when the method is GET,
the upstream status is exactly 200, and the request is not a Range
request; in particular both are skipped for a GET with a non-empty
Range header, regardless of the upstream outcome. -/
theorem cache_gating_exactly :
    ∀ (today : String) (el : Nat) (cM : String → Option CachedResp)
      (up : Except Nat UpstreamResp) (req : WRequest) (g : GitHubInfo)
      (r : FetchResult),
    parseGitHubPath req.url.pathname = some g →
    (req.method = "GET" ∨ req.method = "HEAD") →
    workerFetch today el cM up req = .ok r →
    (r.cacheLookup = (req.method == "GET" && !(isRangeRequest req))) ∧
    (∀ uresp : UpstreamResp, up = .ok uresp → r.cacheHit = false →
      r.cacheWrite.isSome =
        (req.method == "GET" && uresp.status == 200 && !(isRangeRequest req))) := by
  intro today el cM up req g r hg hm h
  rw [workerFetch_main hg hm] at h
  refine ⟨mainFlow_ok_cacheLookup h, ?_⟩
  intro uresp hup hhit
  have hw := (mainFlow_ok_cacheWrite h hup hhit).1
  by_cases hcond : (req.method == "GET" && uresp.status == 200 &&
      !(isRangeRequest req)) = true
  · rw [if_pos hcond] at hw
    rw [hw, hcond]
    rfl
  · rw [if_neg hcond] at hw
    rw [hw]
    simp only [Option.isSome_none]
    exact (Bool.not_eq_true _ ▸ hcond : _ = false).symm

theorem cache_gating_exactly_witness :
    parseGitHubPath "/user/repo" =
      some { host := "github.com", path := "/user/repo",
             fullUrl := "https://github.com/user/repo" } ∧
    workerFetch "20251011" 0 (fun _ => none) (.ok ⟨200, "OK", [], some "B"⟩)
      { method := "GET",
        url := { origin := "https://p.example", pathname := "/user/repo",
                 params := [] },
        headers := [("range", "bytes=0-5")] } =
      .ok (missResult "20251011" 0
        { method := "GET",
          url := { origin := "https://p.example", pathname := "/user/repo",
                   params := [] },
          headers := [("range", "bytes=0-5")] }
        { host := "github.com", path := "/user/repo",
          fullUrl := "https://github.com/user/repo" }
        ⟨200, "OK", [], some "B"⟩) ∧
    (missResult "20251011" 0
      { method := "GET",
        url := { origin := "https://p.example", pathname := "/user/repo",
                 params := [] },
        headers := [("range", "bytes=0-5")] }
      { host := "github.com", path := "/user/repo",
        fullUrl := "https://github.com/user/repo" }
      ⟨200, "OK", [], some "B"⟩).cacheLookup = false ∧
    (missResult "20251011" 0
      { method := "GET",
        url := { origin := "https://p.example", pathname := "/user/repo",
                 params := [] },
        headers := [("range", "bytes=0-5")] }
      { host := "github.com", path := "/user/repo",
        fullUrl := "https://github.com/user/repo" }
      ⟨200, "OK", [], some "B"⟩).cacheWrite.isSome = false := by
  refine ⟨by decide, by decide, ?_, ?_⟩
  · have h := (cache_gating_exactly "20251011" 0 (fun _ => none)
      (.ok ⟨200, "OK", [], some "B"⟩)
      { method := "GET",
        url := { origin := "https://p.example", pathname := "/user/repo",
                 params := [] },
        headers := [("range", "bytes=0-5")] }
      { host := "github.com", path := "/user/repo",
        fullUrl := "https://github.com/user/repo" }
      (missResult "20251011" 0
        { method := "GET",
          url := { origin := "https://p.example", pathname := "/user/repo",
                   params := [] },
          headers := [("range", "bytes=0-5")] }
        { host := "github.com", path := "/user/repo",
          fullUrl := "https://github.com/user/repo" }
        ⟨200, "OK", [], some "B"⟩)
      (by decide) (Or.inl rfl) (by decide)).1
    rw [h]
    decide
  · have h := (cache_gating_exactly "20251011" 0 (fun _ => none)
      (.ok ⟨200, "OK", [], some "B"⟩)
      { method := "GET",
        url := { origin := "https://p.example", pathname := "/user/repo",
                 params := [] },
        headers := [("range", "bytes=0-5")] }
      { host := "github.com", path := "/user/repo",
        fullUrl := "https://github.com/user/repo" }
      (missResult "20251011" 0
        { method := "GET",
          url := { origin := "https://p.example", pathname := "/user/repo",
                   params := [] },
          headers := [("range", "bytes=0-5")] }
        { host := "github.com", path := "/user/repo",
          fullUrl := "https://github.com/user/repo" }
        ⟨200, "OK", [], some "B"⟩)
      (by decide) (Or.inl rfl) (by decide)).2
      ⟨200, "OK", [], some "B"⟩ rfl (by decide)
    rw [h]
    decide

end GhProxy
